import Mathlib

/-!
Verification of the rdformat-validator core (schema-driven validator and fixer)
against its natural-language specification.

The development shallowly embeds the TypeScript sources:

* `src/types/schema.ts`    — the JSON schema data model and the rdformat schema graph
* `src/validator/index.ts` — the `Validator` class (recursive validation, oneOf
  resolution with likelihood / match-score heuristics, RDFormat-specific refinement)
* the `Fixer` class        — error repair keyed by error code

Decoded JSON is modelled by the inductive `JSONValue` (JavaScript numbers are
modelled by `ℚ`; all numeric constants appearing in the shipped schema and in the
scoring heuristics are small integers, on which IEEE doubles are exact).
JavaScript `undefined` is modelled by `Option JSONValue` where it can flow
(error `value` fields, property lookups); a missing key is `none`.

Functions whose recursion does not follow the syntactic structure of these
nested inductives (the recursive validator, which recurses into a re-sorted
list of alternatives, and the refinement pass, which recurses into values
reached through property lookups) take an explicit fuel argument; the public
wrappers pass a structural size plus one, which strictly dominates the
recursion depth, so the fuel never runs out on any input.  Universal theorems
about the fueled recursions are proved for all fuels, so no sufficiency side
conditions are needed.
-/

set_option maxHeartbeats 4000000
set_option maxRecDepth 10000

namespace RDFormat

/-! String helpers shared by the validator (path construction) and the fixer
(path parsing, numeric-string tests). -/

/-- Tests the regular expression `/^\d+$/` used by `joinPath`, `jsIndex` and
`setValueAtPath`. -/
def isNumericStr (s : String) : Bool :=
  if s = "" then false else s.data.all Char.isDigit

/-- Accumulating decimal parse of a digit character list (`parseInt` on a
digits-only string). -/
def charsToNat : List Char → Nat → Nat
  | [], acc => acc
  | c :: cs, acc => charsToNat cs (acc * 10 + (c.toNat - 48))

/-- Decimal parse of a numeric string (callers guard with `isNumericStr`). -/
def strToNatD (s : String) : Nat := charsToNat s.data 0

/-- The character for a decimal digit (digits ten and above cannot arise from
`% 10`). -/
def digitChar (d : Nat) : Char :=
  match d with
  | 0 => '0' | 1 => '1' | 2 => '2' | 3 => '3' | 4 => '4'
  | 5 => '5' | 6 => '6' | 7 => '7' | 8 => '8' | _ => '9'

/-- Decimal digit characters of `n`, most significant first.  The first
argument is fuel; `fuel ≥ n` is always sufficient. -/
def natToChars : Nat → Nat → List Char
  | 0, _ => []
  | _ + 1, 0 => []
  | fuel + 1, n + 1 => natToChars fuel ((n + 1) / 10) ++ [digitChar ((n + 1) % 10)]

/-- Decimal rendering of a natural number, the model of the JavaScript
number-to-string conversion for the integer indices interpolated into paths. -/
def natRepr (n : Nat) : String :=
  if n = 0 then "0" else ⟨natToChars n n⟩

/-- Decimal rendering of an integer. -/
def intRepr (i : Int) : String :=
  if i < 0 then "-" ++ natRepr i.natAbs else natRepr i.natAbs

/-- Display of a JavaScript number.  Integral values (the only ones arising in
the shipped schema constraints and scoring) render exactly; the non-integral
fallback is an approximation of the IEEE decimal rendering and is never hit by
any theorem in this file. -/
def ratDisplay (q : ℚ) : String :=
  if q.den = 1 then intRepr q.num else intRepr q.num ++ "/" ++ natRepr q.den

/-- Characters at which error paths split: `path.split(/[.[\]]/)` in
`parsePath`. -/
def isSepChar (c : Char) : Bool := c == '.' || c == '[' || c == ']'

/-- Splits a character list at separator characters, dropping empty segments
(the `split` followed by `filter(part => part !== '')` of `parsePath`). -/
def splitSegs : List Char → List Char → List String
  | acc, [] => if acc.isEmpty then [] else [⟨acc⟩]
  | acc, c :: cs =>
    if isSepChar c then (if acc.isEmpty then [] else [(⟨acc⟩ : String)]) ++ splitSegs [] cs
    else splitSegs (acc ++ [c]) cs

/-- The fixer's `parsePath`: dotted/bracketed path string to segment list. -/
def parsePath (p : String) : List String := splitSegs [] p.data

/-- The validator's `joinPath`: appends a segment, bracketing numeric
segments. -/
def joinPath (basePath segment : String) : String :=
  if basePath = "" then segment
  else if isNumericStr segment then basePath ++ "[" ++ segment ++ "]"
  else basePath ++ "." ++ segment

/-- JavaScript `String.prototype.split` on a single separator character
(keeps empty segments, never returns an empty list). -/
def jsSplitChars (sep : Char) : List Char → List Char → List String
  | acc, [] => [⟨acc⟩]
  | acc, c :: cs => if c = sep then (⟨acc⟩ : String) :: jsSplitChars sep [] cs else jsSplitChars sep (acc ++ [c]) cs

/-- Splits a string on a separator character, JavaScript-style. -/
def jsSplit (s : String) (sep : Char) : List String := jsSplitChars sep [] s.data

/-- Removes the first occurrence of a character (`replace(']', '')`). -/
def removeFirstChar (s : String) (c : Char) : String :=
  ⟨go s.data⟩
where
  go : List Char → List Char
    | [] => []
    | x :: xs => if x = c then xs else x :: go xs

/-- Tests whether the first list is a prefix of the second. -/
def listPrefix : List Char → List Char → Bool
  | [], _ => true
  | _ :: _, [] => false
  | a :: as, b :: bs => a == b && listPrefix as bs

/-- Tests whether `needle` occurs inside `hay` as a contiguous sublist. -/
def containsSub : List Char → List Char → Bool
  | [], needle => needle.isEmpty
  | a :: rest, needle => listPrefix needle (a :: rest) || containsSub rest needle

/-- JavaScript `String.prototype.includes` on substrings. -/
def strIncludes (s sub : String) : Bool := containsSub s.data sub.data

/-- ASCII whitespace test; the strings of this domain are ASCII, where this
matches the JavaScript whitespace class. -/
def isWS (c : Char) : Bool := c == ' ' || c == '\t' || c == '\n' || c == '\r'

/-- Model of `String.prototype.trim` (strips leading and trailing
whitespace). -/
def jsTrim (s : String) : String :=
  ⟨((s.data.dropWhile isWS).reverse.dropWhile isWS).reverse⟩

/-- ASCII lowercasing of one character. -/
def charToLower (c : Char) : Char :=
  if 'A' ≤ c ∧ c ≤ 'Z' then Char.ofNat (c.toNat + 32) else c

/-- Model of `String.prototype.toLowerCase` (the strings it is applied to in
this development are ASCII). -/
def jsToLower (s : String) : String := ⟨s.data.map charToLower⟩

/-- Decoded JSON values, the input domain of `validate` and `fix`. -/
inductive JSONValue where
  | null
  | bool (b : Bool)
  | num (q : ℚ)
  | str (s : String)
  | arr (elems : List JSONValue)
  | obj (fields : List (String × JSONValue))

/-- Result of the JavaScript `typeof` operator on a decoded JSON value
(`typeof null` is the string "object", and arrays are objects). -/
def jsTypeof : JSONValue → String
  | .null => "object"
  | .bool _ => "boolean"
  | .num _ => "number"
  | .str _ => "string"
  | .arr _ => "object"
  | .obj _ => "object"

/-- JavaScript truthiness of a decoded JSON value. -/
def truthy : JSONValue → Bool
  | .null => false
  | .bool b => b
  | .num q => if q = 0 then false else true
  | .str s => if s = "" then false else true
  | .arr _ => true
  | .obj _ => true

/-- Tests whether a value is an array (`Array.isArray`). -/
def JSONValue.isArr : JSONValue → Bool
  | .arr _ => true
  | _ => false

/-- Own-property lookup in an object field list (first binding wins;
`JSON.parse` output has unique keys). -/
def fieldsGet : List (String × JSONValue) → String → Option JSONValue
  | [], _ => none
  | (k, v) :: rest, key => if k = key then some v else fieldsGet rest key

/-- Member access `v[key]` for the key shapes produced by the validator:
object own properties, and numeric string indices into arrays.  (Exotic
JavaScript cases — `length` on arrays, character indexing into strings — do
not occur on validator-generated paths and are modelled as `undefined`.) -/
def jsIndex : JSONValue → String → Option JSONValue
  | .obj fs, key => fieldsGet fs key
  | .arr xs, key => if isNumericStr key then xs.get? (strToNatD key) else none
  | _, _ => none

/-- Tests `Object.prototype.hasOwnProperty.call(v, key)` for object values
(every use in the source is guarded by an object check). -/
def hasProp (v : JSONValue) (key : String) : Bool :=
  match v with
  | .obj fs => (fieldsGet fs key).isSome
  | _ => false

/-- Keys of an object value, in insertion order (`Object.keys`). -/
def objKeys : JSONValue → List String
  | .obj fs => fs.map (·.1)
  | _ => []

/-- Schema nodes, after `src/types/schema.ts` (interface `JSONSchema`).  The
documentation-only fields (`title`, `description`, `$schema`, `$id`) are never
read by the validator and are omitted; `anyOf` / `allOf` / `not` never occur in
the shipped schema and are never read either. -/
inductive JSONSchema where
  | mk (type : Option String)
       (required : Option (List String))
       (properties : Option (List (String × JSONSchema)))
       (items : Option JSONSchema)
       (enum : Option (List String))
       (minimum : Option ℚ)
       (maximum : Option ℚ)
       (minLength : Option Nat)
       (maxLength : Option Nat)
       (pattern : Option String)
       (additionalProperties : Option Bool)
       (oneOf : Option (List JSONSchema))

namespace JSONSchema

/-- Field accessor for `type`. -/
def type : JSONSchema → Option String
  | .mk t _ _ _ _ _ _ _ _ _ _ _ => t

/-- Field accessor for `required`. -/
def required : JSONSchema → Option (List String)
  | .mk _ r _ _ _ _ _ _ _ _ _ _ => r

/-- Field accessor for `properties`. -/
def properties : JSONSchema → Option (List (String × JSONSchema))
  | .mk _ _ p _ _ _ _ _ _ _ _ _ => p

/-- Field accessor for `items`. -/
def items : JSONSchema → Option JSONSchema
  | .mk _ _ _ i _ _ _ _ _ _ _ _ => i

/-- Field accessor for `enum`. -/
def enum : JSONSchema → Option (List String)
  | .mk _ _ _ _ e _ _ _ _ _ _ _ => e

/-- Field accessor for `minimum`. -/
def minimum : JSONSchema → Option ℚ
  | .mk _ _ _ _ _ m _ _ _ _ _ _ => m

/-- Field accessor for `maximum`. -/
def maximum : JSONSchema → Option ℚ
  | .mk _ _ _ _ _ _ m _ _ _ _ _ => m

/-- Field accessor for `minLength`. -/
def minLength : JSONSchema → Option Nat
  | .mk _ _ _ _ _ _ _ m _ _ _ _ => m

/-- Field accessor for `maxLength`. -/
def maxLength : JSONSchema → Option Nat
  | .mk _ _ _ _ _ _ _ _ m _ _ _ => m

/-- Field accessor for `pattern`. -/
def pattern : JSONSchema → Option String
  | .mk _ _ _ _ _ _ _ _ _ p _ _ => p

/-- Field accessor for `additionalProperties`. -/
def additionalProperties : JSONSchema → Option Bool
  | .mk _ _ _ _ _ _ _ _ _ _ a _ => a

/-- Field accessor for `oneOf`. -/
def oneOf : JSONSchema → Option (List JSONSchema)
  | .mk _ _ _ _ _ _ _ _ _ _ _ o => o

/-- Replaces the `oneOf` alternatives of a node, keeping every other field.
Used to model the in-place reordering performed by `sortSchemasByLikelihood`. -/
def withOneOf : JSONSchema → List JSONSchema → JSONSchema
  | .mk t r p i e mn mx ml xl pa ap _, alts => .mk t r p i e mn mx ml xl pa ap (some alts)

end JSONSchema

/-- Helper to build a plain typed schema node with no constraints. -/
def typeNode (t : String) : JSONSchema :=
  .mk (some t) none none none none none none none none none none none

/-- The `position` schema of `src/types/schema.ts` (`positionSchema`). -/
def positionSchema : JSONSchema :=
  .mk (some "object")
      (some ["line"])
      (some [("line", .mk (some "number") none none none none (some 1) none none none none none none),
             ("column", .mk (some "number") none none none none (some 1) none none none none none none)])
      none none none none none none none (some false) none

/-- The `range` schema (`rangeSchema`). -/
def rangeSchema : JSONSchema :=
  .mk (some "object")
      (some ["start"])
      (some [("start", positionSchema), ("end", positionSchema)])
      none none none none none none none (some false) none

/-- The `location` schema (`locationSchema`). -/
def locationSchema : JSONSchema :=
  .mk (some "object")
      (some ["path"])
      (some [("path", .mk (some "string") none none none none none none (some 1) none none none none),
             ("range", rangeSchema)])
      none none none none none none none (some false) none

/-- The `source` schema (`sourceSchema`). -/
def sourceSchema : JSONSchema :=
  .mk (some "object")
      (some ["name"])
      (some [("name", .mk (some "string") none none none none none none (some 1) none none none none),
             ("url", .mk (some "string") none none none none none none none none (some "^https?://.+") none none)])
      none none none none none none none (some false) none

/-- The `code` schema (`codeSchema`). -/
def codeSchema : JSONSchema :=
  .mk (some "object")
      none
      (some [("value", .mk (some "string") none none none none none none (some 1) none none none none),
             ("url", .mk (some "string") none none none none none none none none (some "^https?://.+") none none)])
      none none none none none none none (some false) none

/-- The `suggestion` schema (`suggestionSchema`). -/
def suggestionSchema : JSONSchema :=
  .mk (some "object")
      (some ["text", "range"])
      (some [("range", rangeSchema), ("text", typeNode "string")])
      none none none none none none none (some false) none

/-- The `relatedLocation` schema (`relatedLocationSchema`). -/
def relatedLocationSchema : JSONSchema :=
  .mk (some "object")
      (some ["location"])
      (some [("message", typeNode "string"), ("location", locationSchema)])
      none none none none none none none (some false) none

/-- The severity enum values (`severityEnum`). -/
def severityEnum : List String := ["UNKNOWN_SEVERITY", "ERROR", "WARNING", "INFO"]

/-- The `diagnostic` schema (`diagnosticSchema`). -/
def diagnosticSchema : JSONSchema :=
  .mk (some "object")
      (some ["message", "location"])
      (some [("message", .mk (some "string") none none none none none none (some 1) none none none none),
             ("location", locationSchema),
             ("severity", .mk (some "string") none none none (some severityEnum) none none none none none none none),
             ("source", sourceSchema),
             ("code", codeSchema),
             ("suggestions", .mk (some "array") none none (some suggestionSchema) none none none none none none none none),
             ("original_output", typeNode "string"),
             ("related_locations", .mk (some "array") none none (some relatedLocationSchema) none none none none none none none none)])
      none none none none none none none (some false) none

/-- The array-of-diagnostics alternative of the top-level schema
(`DiagnosticArray`). -/
def diagnosticArraySchema : JSONSchema :=
  .mk (some "array") none none (some diagnosticSchema) none none none none none none none none

/-- The `DiagnosticResult` alternative of the top-level schema. -/
def diagnosticResultSchema : JSONSchema :=
  .mk (some "object")
      (some ["diagnostics"])
      (some [("diagnostics", .mk (some "array") none none (some diagnosticSchema) none none none none none none none none),
             ("source", sourceSchema),
             ("severity", .mk (some "string") none none none (some severityEnum) none none none none none none none)])
      none none none none none none none (some false) none

/-- The top-level rdformat schema (`rdformatSchema`), a three-way `oneOf`. -/
def rdformatSchema : JSONSchema :=
  .mk none none none none none none none none none none none
      (some [diagnosticSchema, diagnosticArraySchema, diagnosticResultSchema])

/-! Size measures for the nested inductives, used only to compute fuel bounds
for the fueled recursions below (any fuel at least the size is sufficient). -/

mutual

/-- Structural size of a JSON value. -/
def jsonValueSize : JSONValue → Nat
  | .null => 1
  | .bool _ => 1
  | .num _ => 1
  | .str _ => 1
  | .arr xs => 1 + jsonListSize xs
  | .obj fs => 1 + jsonFieldsSize fs

/-- Structural size of a list of JSON values. -/
def jsonListSize : List JSONValue → Nat
  | [] => 0
  | x :: xs => 1 + jsonValueSize x + jsonListSize xs

/-- Structural size of an object field list. -/
def jsonFieldsSize : List (String × JSONValue) → Nat
  | [] => 0
  | (_, v) :: fs => 1 + jsonValueSize v + jsonFieldsSize fs

end

mutual

/-- Structural size of a schema node. -/
def schemaSize : JSONSchema → Nat
  | .mk _ _ props items _ _ _ _ _ _ _ alts =>
    1 + schemaPropsSize props + schemaItemsSize items + schemaOneOfSize alts

/-- Structural size of an optional property map. -/
def schemaPropsSize : Option (List (String × JSONSchema)) → Nat
  | none => 0
  | some l => schemaPlistSize l

/-- Structural size of a property list. -/
def schemaPlistSize : List (String × JSONSchema) → Nat
  | [] => 0
  | (_, s) :: rest => 1 + schemaSize s + schemaPlistSize rest

/-- Structural size of an optional items schema. -/
def schemaItemsSize : Option JSONSchema → Nat
  | none => 0
  | some s => 1 + schemaSize s

/-- Structural size of an optional alternative list. -/
def schemaOneOfSize : Option (List JSONSchema) → Nat
  | none => 0
  | some l => schemaSlistSize l

/-- Structural size of a schema list. -/
def schemaSlistSize : List JSONSchema → Nat
  | [] => 0
  | s :: rest => 1 + schemaSize s + schemaSlistSize rest

end

/-- Validation error codes (`ValidationErrorCode` in `src/validator/index.ts`). -/
inductive ValidationErrorCode where
  | NULL_INPUT
  | EMPTY_INPUT
  | INVALID_JSON
  | TYPE_MISMATCH
  | ONEOF_VALIDATION_FAILED
  | ENUM_VALIDATION_FAILED
  | MIN_LENGTH_VIOLATION
  | MAX_LENGTH_VIOLATION
  | PATTERN_MISMATCH
  | EMPTY_STRING
  | MIN_VALUE_VIOLATION
  | MAX_VALUE_VIOLATION
  | INVALID_NUMBER
  | REQUIRED_PROPERTY_MISSING
  | UNKNOWN_PROPERTY
  | INVALID_OBJECT_STRUCTURE
  | INVALID_ARRAY_ITEM
  | EMPTY_ARRAY
  | INVALID_SEVERITY
  | INVALID_LOCATION
  | INVALID_RANGE
  | INVALID_POSITION
  | MISSING_DIAGNOSTIC_MESSAGE
  | MISSING_DIAGNOSTIC_LOCATION
  deriving DecidableEq, Repr

/-- Structured validation error (`ValidationError`).  The `value` field is
`Option JSONValue` with `none` standing for the JavaScript `undefined`. -/
structure ValidationError where
  path : String
  code : ValidationErrorCode
  message : String
  value : Option JSONValue
  expected : Option String

/-- Structured validation warning (`ValidationWarning`). -/
structure ValidationWarning where
  path : String
  code : ValidationErrorCode
  message : String

/-- Result of a validation call (`ValidationResult`). -/
structure ValidationResult where
  valid : Bool
  errors : List ValidationError
  warnings : List ValidationWarning

/-- Validator options (`ValidationOptions`); the constructor defaults are
`strictMode: false`, `allowExtraFields: true`. -/
structure ValidationOptions where
  strictMode : Bool
  allowExtraFields : Bool

/-- The default option set installed by the `Validator` constructor. -/
def defaultOptions : ValidationOptions := ⟨false, true⟩

/-! Error message templates (`ErrorReporter.getErrorMessage`).  The spec treats
message text as informational; the fixer nevertheless parses the numeric bound
out of `MIN_VALUE_VIOLATION` / `MAX_VALUE_VIOLATION` messages, so the templates
are reproduced from the source. -/

mutual

/-- Display of a value in a template literal (`String(value)`): arrays join
their elements with commas (null elements render empty), plain objects render
as the tag string. -/
def jsToStringV : JSONValue → String
  | .null => "null"
  | .bool b => if b then "true" else "false"
  | .num q => ratDisplay q
  | .str s => s
  | .arr xs => jsToStringArr xs
  | .obj _ => "[object Object]"

/-- Comma join of array elements for `Array.prototype.toString`. -/
def jsToStringArr : List JSONValue → String
  | [] => ""
  | [x] => (match x with | .null => "" | v => jsToStringV v)
  | x :: y :: xs => (match x with | .null => "" | v => jsToStringV v) ++ "," ++ jsToStringArr (y :: xs)

end

/-- Template-literal display of a possibly-undefined value. -/
def jsDisplay : Option JSONValue → String
  | none => "undefined"
  | some v => jsToStringV v

/-- Display of `typeof value` where `value` may be `undefined`. -/
def typeofDisplay : Option JSONValue → String
  | none => "undefined"
  | some v => jsTypeof v

/-- Extraction of the property name displayed by required/unknown-property
messages: `path.split('.').pop() || path.split('[').pop()?.replace(']', '')`. -/
def lastPathProp (path : String) : String :=
  let p1 := (jsSplit path '.').getLastD ""
  if p1 = "" then removeFirstChar ((jsSplit path '[').getLastD "") ']' else p1

/-- Human-readable error messages per code (`getErrorMessage`). -/
def getErrorMessage (code : ValidationErrorCode) (path : String) (value : Option JSONValue)
    (expected : Option String) (constraint : Option String) (suggestion : Option String) : String :=
  let pathDisplay := if path = "" then "" else " at '" ++ path ++ "'"
  match code with
  | .NULL_INPUT => "Input cannot be null or undefined. Please provide valid RDFormat data."
  | .EMPTY_INPUT => "Input cannot be empty. Please provide valid RDFormat data."
  | .TYPE_MISMATCH =>
    "Expected " ++ expected.getD "different type" ++ pathDisplay ++ ", but got " ++
      typeofDisplay value ++ ". " ++ suggestion.getD ""
  | .REQUIRED_PROPERTY_MISSING =>
    "Missing required property '" ++ lastPathProp path ++ "'" ++ pathDisplay ++
      ". This field is mandatory in RDFormat."
  | .UNKNOWN_PROPERTY =>
    "Unknown property '" ++ lastPathProp path ++ "'" ++ pathDisplay ++
      ". This property is not part of the RDFormat specification."
  | .ENUM_VALIDATION_FAILED =>
    "Invalid value '" ++ jsDisplay value ++ "'" ++ pathDisplay ++ ". " ++
      expected.getD "Must be one of the allowed values" ++ "."
  | .MIN_LENGTH_VIOLATION =>
    "String" ++ pathDisplay ++ " must be at least " ++ constraint.getD "undefined" ++
      " characters long, but got " ++
      natRepr (match value with | some (.str s) => s.length | _ => 0) ++ " characters."
  | .MAX_LENGTH_VIOLATION =>
    "String" ++ pathDisplay ++ " must be at most " ++ constraint.getD "undefined" ++
      " characters long, but got " ++
      natRepr (match value with | some (.str s) => s.length | _ => 0) ++ " characters."
  | .PATTERN_MISMATCH =>
    "String" ++ pathDisplay ++ " does not match the required format. " ++
      expected.getD "Please check the pattern requirements" ++ "."
  | .EMPTY_STRING =>
    "String" ++ pathDisplay ++ " cannot be empty. Please provide a non-empty value."
  | .MIN_VALUE_VIOLATION =>
    "Number" ++ pathDisplay ++ " must be at least " ++ constraint.getD "undefined" ++
      ", but got " ++ jsDisplay value ++ "."
  | .MAX_VALUE_VIOLATION =>
    "Number" ++ pathDisplay ++ " must be at most " ++ constraint.getD "undefined" ++
      ", but got " ++ jsDisplay value ++ "."
  | .ONEOF_VALIDATION_FAILED =>
    "Value" ++ pathDisplay ++ " does not match any of the expected RDFormat structures. Please ensure your data follows one of the supported formats (single diagnostic, array of diagnostics, or diagnostic result)."
  | .MISSING_DIAGNOSTIC_MESSAGE =>
    "Diagnostic" ++ pathDisplay ++ " is missing the required 'message' field. Every diagnostic must have a descriptive message."
  | .MISSING_DIAGNOSTIC_LOCATION =>
    "Diagnostic" ++ pathDisplay ++ " is missing the required 'location' field. Every diagnostic must specify where the issue was found."
  | .INVALID_LOCATION =>
    "Location" ++ pathDisplay ++ " is invalid. A location must have a 'path' field and optionally a 'range' field."
  | .INVALID_RANGE =>
    "Range" ++ pathDisplay ++ " is invalid. A range must have a 'start' position and optionally an 'end' position."
  | .INVALID_POSITION =>
    "Position" ++ pathDisplay ++ " is invalid. A position must have a positive integer (1-based line number) and optionally a column number."
  | .INVALID_SEVERITY =>
    "Severity" ++ pathDisplay ++ " must be one of: UNKNOWN_SEVERITY, ERROR, WARNING, INFO. Got '" ++ jsDisplay value ++ "'."
  | _ => "Validation failed" ++ pathDisplay ++ ": " ++ expected.getD "Invalid value" ++ "."

/-- Human-readable warning messages per code (`getWarningMessage`). -/
def getWarningMessage (code : ValidationErrorCode) (path : String) : String :=
  let pathDisplay := if path = "" then "" else " at '" ++ path ++ "'"
  match code with
  | .UNKNOWN_PROPERTY =>
    "Property '" ++ lastPathProp path ++ "'" ++ pathDisplay ++
      " is not part of the RDFormat specification but will be ignored."
  | _ => "Warning" ++ pathDisplay ++ ": Potential issue detected."

/-- Builds a validation error with its message (`ErrorReporter.createError`). -/
def createError (path : String) (code : ValidationErrorCode) (value : Option JSONValue)
    (expected : Option String) (constraint : Option String) (suggestion : Option String) :
    ValidationError :=
  ⟨path, code, getErrorMessage code path value expected constraint suggestion, value, expected⟩

/-- Builds a validation warning (`ErrorReporter.createWarning`). -/
def createWarning (path : String) (code : ValidationErrorCode) (message : Option String) :
    ValidationWarning :=
  ⟨path, code, message.getD (getWarningMessage code path)⟩

/-! The recursive validator (`Validator.validateValue` and helpers). -/

/-- Runtime type check (`Validator.validateType`).  Decoded JSON contains no
NaN, so the `isNaN` guard of the number case never fires. -/
def validateType (value : JSONValue) (expectedType : String) : Bool :=
  if expectedType = "string" then (match value with | .str _ => true | _ => false)
  else if expectedType = "number" then (match value with | .num _ => true | _ => false)
  else if expectedType = "boolean" then (match value with | .bool _ => true | _ => false)
  else if expectedType = "object" then (match value with | .obj _ => true | _ => false)
  else if expectedType = "array" then value.isArr
  else if expectedType = "null" then (match value with | .null => true | _ => false)
  else false

/-- JavaScript truthiness of a possibly-undefined value. -/
def truthyOpt : Option JSONValue → Bool
  | none => false
  | some v => truthy v

/-- Membership test `schema.enum.includes(value)`; `includes` compares with
strict equality, so non-strings never match the string enum entries. -/
def enumHas (es : List String) (value : JSONValue) : Bool :=
  match value with
  | .str s => es.contains s
  | _ => false

/-- Model of `new RegExp(pattern).test(value)` for the single pattern occurring
in the shipped schema, `^https?://.+` (a dot does not match line terminators).
No other pattern string is reachable from the schemas in this file. -/
def patternTest (pat : String) (s : String) : Bool :=
  if pat = "^https?://.+" then
    (match s.data.drop 7 with
     | c :: _ => listPrefix "http://".data s.data && c != '\n' && c != '\r'
     | [] => false) ||
    (match s.data.drop 8 with
     | c :: _ => listPrefix "https://".data s.data && c != '\n' && c != '\r'
     | [] => false)
  else false

/-- String constraint checks of `validateValue` (empty string preferred over
minimum length, then maximum length, then pattern).  String length counts
Unicode code points; the inputs in this file are ASCII, where this agrees with
the JavaScript UTF-16 length. -/
def stringConstraintErrors (schema : JSONSchema) (value : JSONValue) (path : String) :
    List ValidationError :=
  match value with
  | .str s =>
    if schema.type = some "string" then
      let minE :=
        match schema.minLength with
        | some ml =>
          if 0 < ml ∧ jsTrim s = "" then
            [createError path .EMPTY_STRING (some value) (some "non-empty string") none none]
          else if s.length < ml then
            [createError path .MIN_LENGTH_VIOLATION (some value)
              (some ("string with minimum length " ++ natRepr ml)) (some (natRepr ml)) none]
          else []
        | none => []
      let maxE :=
        match schema.maxLength with
        | some xl =>
          if xl < s.length then
            [createError path .MAX_LENGTH_VIOLATION (some value)
              (some ("string with maximum length " ++ natRepr xl)) (some (natRepr xl)) none]
          else []
        | none => []
      let patE :=
        match schema.pattern with
        | some p =>
          if p ≠ "" ∧ patternTest p s = false then
            [createError path .PATTERN_MISMATCH (some value)
              (some ("string matching pattern: " ++ p)) none none]
          else []
        | none => []
      minE ++ maxE ++ patE
    else []
  | _ => []

/-- Number constraint checks of `validateValue` (`minimum` / `maximum`). -/
def numberConstraintErrors (schema : JSONSchema) (value : JSONValue) (path : String) :
    List ValidationError :=
  match value with
  | .num q =>
    if schema.type = some "number" then
      let minE :=
        match schema.minimum with
        | some m =>
          if q < m then
            [createError path .MIN_VALUE_VIOLATION (some value)
              (some ("number >= " ++ ratDisplay m)) (some (ratDisplay m)) none]
          else []
        | none => []
      let maxE :=
        match schema.maximum with
        | some m =>
          if m < q then
            [createError path .MAX_VALUE_VIOLATION (some value)
              (some ("number <= " ++ ratDisplay m)) (some (ratDisplay m)) none]
          else []
        | none => []
      minE ++ maxE
    else []
  | _ => []

/-- Missing-required-property errors of `validateObject`, one per absent name,
in declaration order. -/
def requiredErrors (value : JSONValue) (schema : JSONSchema) (path : String) :
    List ValidationError :=
  match schema.required with
  | some reqs =>
    (reqs.filter (fun rp => hasProp value rp = false)).map (fun rp =>
      createError (joinPath path rp) .REQUIRED_PROPERTY_MISSING none
        (some ("object with required property '" ++ rp ++ "'")) none none)
  | none => []

/-- Unknown-property handling of `validateObject`: errors in strict mode,
warnings otherwise, when extra fields are disallowed. -/
def extraPropResults (opts : ValidationOptions) (value : JSONValue) (schema : JSONSchema)
    (path : String) : List ValidationError × List ValidationWarning :=
  match schema.properties with
  | some props =>
    if schema.additionalProperties = some false ∨ opts.allowExtraFields = false then
      let allowed := props.map (·.1)
      let extras := (objKeys value).filter (fun k => allowed.contains k = false)
      if opts.strictMode then
        (extras.map (fun k => createError (joinPath path k) .UNKNOWN_PROPERTY (jsIndex value k)
          (some "property not present") none none), [])
      else
        ([], extras.map (fun k => createWarning (joinPath path k) .UNKNOWN_PROPERTY none))
    else ([], [])
  | none => ([], [])

/-- Exact fraction arithmetic for the likelihood heuristic.  The heuristic
computes real-valued scores (IEEE doubles in the source; exact on the small
integers involved).  Normalised rationals do not reduce in the kernel (their
operations run the gcd), so scores are kept as unreduced fractions with a
positive denominator maintained by construction. -/
structure Score where
  num : Int
  den : Nat
  deriving DecidableEq, Repr

/-- Embeds an integer score. -/
def Score.ofInt (i : Int) : Score := ⟨i, 1⟩

/-- Fraction addition (no normalisation). -/
def Score.add (a b : Score) : Score := ⟨a.num * b.den + b.num * a.den, a.den * b.den⟩

/-- Fraction subtraction (no normalisation). -/
def Score.sub (a b : Score) : Score := ⟨a.num * b.den - b.num * a.den, a.den * b.den⟩

/-- Fraction multiplication (no normalisation). -/
def Score.mul (a b : Score) : Score := ⟨a.num * b.num, a.den * b.den⟩

/-- Strict comparison by cross-multiplication (denominators are positive). -/
def Score.blt (a b : Score) : Bool := decide (a.num * b.den < b.num * a.den)

/-- Nonstrict comparison by cross-multiplication (denominators are positive). -/
def Score.ble (a b : Score) : Bool := decide (a.num * b.den ≤ b.num * a.den)

/-- Likelihood score of a schema alternative against a value
(`Validator.getSchemaLikelihoodScore`), used only to order `oneOf`
candidates.  Fueled; the wrapper below supplies sufficient fuel. -/
def getSchemaLikelihoodScoreF : Nat → JSONSchema → JSONValue → Score
  | 0, _, _ => .ofInt 0
  | fuel + 1, schema, value =>
    match schema.type with
    | none => .ofInt 0
    | some t =>
      if validateType value t = false then .ofInt 0
      else
        let score0 : Score := .ofInt 10
        let score :=
          match value with
          | .obj _ =>
            if t = "object" then
              let valueProps := objKeys value
              let s1 :=
                match schema.required with
                | some reqs =>
                  let matching := reqs.filter (fun p => valueProps.contains p)
                  if matching.length = reqs.length then score0.add (.ofInt 50)
                  else (score0.add (.ofInt (matching.length * 5))).sub
                    (.ofInt ((reqs.length - matching.length : Nat) * 20))
                | none => score0
              let s2 :=
                match schema.properties with
                | some props =>
                  let schemaProps := props.map (·.1)
                  let matching := schemaProps.filter (fun p => valueProps.contains p)
                  (s1.add (.ofInt (matching.length * 2))).add
                    ((⟨matching.length, if valueProps.length = 0 then 1 else valueProps.length⟩ :
                      Score).mul (.ofInt 10))
                | none => s1
              let s3 :=
                if truthyOpt (jsIndex value "message") ∧ truthyOpt (jsIndex value "location") ∧
                    (schema.required.getD []).contains "message" ∧
                    (schema.required.getD []).contains "location"
                then s2.add (.ofInt 30) else s2
              if (schema.required.getD []).contains "diagnostics" ∧
                  (truthyOpt (jsIndex value "message") ∨ truthyOpt (jsIndex value "location"))
              then s3.sub (.ofInt 25) else s3
            else score0
          | .arr xs =>
            if t = "array" then
              let s := score0.add (.ofInt 15)
              match xs, schema.items with
              | x0 :: _, some itemsSchema =>
                s.add ((getSchemaLikelihoodScoreF fuel itemsSchema x0).mul ⟨3, 10⟩)
              | _, _ => s
            else score0
          | _ => score0
        if score.blt (.ofInt 0) then .ofInt 0 else score

/-- Likelihood score with sufficient fuel. -/
def getSchemaLikelihoodScore (schema : JSONSchema) (value : JSONValue) : Score :=
  getSchemaLikelihoodScoreF (schemaSize schema + 1) schema value

/-- Ordered insertion for the descending stable sort of `oneOf` candidates. -/
def sortInsert (key : JSONSchema → Score) (x : JSONSchema) : List JSONSchema → List JSONSchema
  | [] => [x]
  | y :: ys => if (key y).ble (key x) then x :: y :: ys else y :: sortInsert key x ys

/-- Stable descending sort by likelihood score
(`Validator.sortSchemasByLikelihood`).  `Array.prototype.sort` with the
comparator `scoreB - scoreA` is a stable sort placing higher scores first and
keeping declaration order on ties; stable insertion sort computes the same
permutation. -/
def sortSchemasByLikelihood (value : JSONValue) : List JSONSchema → List JSONSchema
  | [] => []
  | s :: rest =>
    sortInsert (fun t => getSchemaLikelihoodScore t value) s (sortSchemasByLikelihood value rest)

/-- The error codes treated as structural (right shape, wrong detail) by the
match-score heuristic. -/
def structuralCodes : List ValidationErrorCode :=
  [.MIN_LENGTH_VIOLATION, .MAX_LENGTH_VIOLATION, .PATTERN_MISMATCH, .EMPTY_STRING,
   .MIN_VALUE_VIOLATION, .MAX_VALUE_VIOLATION, .ENUM_VALIDATION_FAILED, .INVALID_POSITION,
   .INVALID_RANGE, .INVALID_LOCATION, .INVALID_SEVERITY]

/-- Post-hoc match score of a failed `oneOf` alternative
(`Validator.calculateSchemaMatchScore`); pure integer arithmetic. -/
def calculateSchemaMatchScore (value : JSONValue) (schema : JSONSchema)
    (errors : List ValidationError) : Int :=
  let s0 : Int := 100 - errors.length * 5
  let s1 := s0 - (errors.countP (fun e => e.code == .TYPE_MISMATCH)) * 50
  let s2 := s1 - (errors.countP (fun e => e.code == .REQUIRED_PROPERTY_MISSING)) * 30
  let s3 := s2 + (errors.countP (fun e => structuralCodes.contains e.code)) * 2
  let s4 :=
    match value with
    | .obj _ =>
      if schema.type = some "object" then
        let b1 := if (schema.required.getD []).contains "message" ∧
            truthyOpt (jsIndex value "message") then s3 + 10 else s3
        let b2 := if (schema.required.getD []).contains "location" ∧
            truthyOpt (jsIndex value "location") then b1 + 10 else b1
        if (schema.required.getD []).contains "diagnostics" ∧
            truthyOpt (jsIndex value "diagnostics") = false then b2 - 20 else b2
      else s3
    | _ => s3
  if s4 < 0 then 0 else s4

/-- Resolution of an evaluated `oneOf` candidate list: first alternative with
no errors wins (its warnings are surfaced); otherwise the running best
(strictly higher match score replaces, first maximum wins, matching
`bestScore === -1 || score > bestScore` since every score is nonnegative)
supplies the surfaced errors and warnings. -/
def resolveOneOf (value : JSONValue) :
    List (JSONSchema × (List ValidationError × List ValidationWarning)) →
    Option (Int × List ValidationError × List ValidationWarning) →
    List ValidationError × List ValidationWarning
  | [], none => ([], [])
  | [], some best => (best.2.1, best.2.2)
  | (s, (se, sw)) :: rest, best =>
    if se.isEmpty then ([], sw)
    else
      let score := calculateSchemaMatchScore value s se
      match best with
      | none => resolveOneOf value rest (some (score, se, sw))
      | some (b, be, bw) =>
        if score > b then resolveOneOf value rest (some (score, se, sw))
        else resolveOneOf value rest (some (b, be, bw))

/-- The recursive validation of a value against a schema node
(`Validator.validateValue`), accumulating errors and warnings in source
order.  The source validates sorted `oneOf` alternatives lazily, breaking on
the first success; validation is pure, so evaluating every alternative first
and resolving afterwards is observationally identical. -/
def validateValueF : Nat → ValidationOptions → JSONValue → JSONSchema → String →
    List ValidationError × List ValidationWarning
  | 0, _, _, _, _ => ([], [])
  | fuel + 1, opts, value, schema, path =>
    match schema.oneOf with
    | some alts =>
      let sorted := sortSchemasByLikelihood value alts
      let results := sorted.map (fun s => (s, validateValueF fuel opts value s path))
      resolveOneOf value results none
    | none =>
      let deeperChecks : List ValidationError × List ValidationWarning :=
        let strE := stringConstraintErrors schema value path
        let numE := numberConstraintErrors schema value path
        let (objE, objW) :=
          match value with
          | .obj fields =>
            if schema.type = some "object" then
              let reqE := requiredErrors value schema path
              let propResults := (schema.properties.getD []).map
                (fun (pr : String × JSONSchema) =>
                  match fieldsGet fields pr.1 with
                  | some pv => validateValueF fuel opts pv pr.2 (joinPath path pr.1)
                  | none => ([], []))
              let (extraE, extraW) := extraPropResults opts value schema path
              (reqE ++ (propResults.map Prod.fst).flatten ++ extraE,
               (propResults.map Prod.snd).flatten ++ extraW)
            else ([], [])
          | _ => ([], [])
        let (arrE, arrW) :=
          match value with
          | .arr xs =>
            if schema.type = some "array" then
              match schema.items with
              | some itemsSchema =>
                let results := xs.enum.map (fun (ia : Nat × JSONValue) =>
                  validateValueF fuel opts ia.2 itemsSchema (joinPath path (natRepr ia.1)))
                ((results.map Prod.fst).flatten, (results.map Prod.snd).flatten)
              | none => ([], [])
            else ([], [])
          | _ => ([], [])
        (strE ++ numE ++ objE ++ arrE, objW ++ arrW)
      let afterType : List ValidationError × List ValidationWarning :=
        match schema.enum with
        | some es =>
          if enumHas es value = false then
            ([createError path .ENUM_VALIDATION_FAILED (some value)
                (some ("one of: " ++ String.intercalate ", " es)) none none], [])
          else deeperChecks
        | none => deeperChecks
      match schema.type with
      | some t =>
        if validateType value t = false then
          ([createError path .TYPE_MISMATCH (some value) (some t) none
              (some ("Please provide a " ++ t ++ " value."))], [])
        else afterType
      | none => afterType

/-! The RDFormat-specific refinement pass
(`Validator.addRDFormatSpecificValidation` and helpers). -/

/-- Tests whether a value looks like a single (possibly partial) diagnostic
(`Validator.isPartialDiagnostic`). -/
def isPartialDiagnostic (v : JSONValue) : Bool :=
  match v with
  | .obj _ =>
    !(hasProp v "diagnostics") &&
      (hasProp v "message" || hasProp v "location" || hasProp v "severity" || hasProp v "source")
  | _ => false

/-- Tests whether a value looks like a diagnostic result
(`Validator.isDiagnosticResult`). -/
def isDiagnosticResult (v : JSONValue) : Bool :=
  match v with
  | .obj _ => hasProp v "diagnostics"
  | _ => false

/-- Removes the first error with the given path and code, if any (the
`findIndex` / `splice` idiom of the refinement pass). -/
def spliceOut (errors : List ValidationError) (path : String) (code : ValidationErrorCode) :
    List ValidationError :=
  match errors.findIdx? (fun e => e.path == path && e.code == code) with
  | some i => errors.eraseIdx i
  | none => errors

/-- Tests `typeof v !== 'number' || v < 1` for a possibly-undefined position
field. -/
def positionFieldBad : Option JSONValue → Bool
  | some (.num q) => if q < 1 then true else false
  | _ => true

/-- Position refinement (`Validator.addPositionSpecificValidation`): replaces a
generic `MIN_VALUE_VIOLATION` at a bad `line` / `column` path with
`INVALID_POSITION`.  The warnings parameter of the source is never used. -/
def addPositionSpecificValidation (position : JSONValue) (path : String)
    (errors : List ValidationError) : List ValidationError :=
  let lineV := jsIndex position "line"
  let e1 :=
    if positionFieldBad lineV then
      spliceOut errors (joinPath path "line") .MIN_VALUE_VIOLATION ++
        [createError (joinPath path "line") .INVALID_POSITION lineV
          (some "positive integer (1-based line number)") none none]
    else errors
  let colV := jsIndex position "column"
  if colV.isSome ∧ positionFieldBad colV then
    spliceOut e1 (joinPath path "column") .MIN_VALUE_VIOLATION ++
      [createError (joinPath path "column") .INVALID_POSITION colV
        (some "positive integer (1-based column number) or undefined") none none]
  else e1

/-- Location refinement (`Validator.addLocationSpecificValidation`): range and
position specific errors. -/
def addLocationSpecificValidation (location : JSONValue) (path : String)
    (errors : List ValidationError) : List ValidationError :=
  match jsIndex location "range" with
  | some rng =>
    if truthy rng ∧ jsTypeof rng = "object" then
      let startV := jsIndex rng "start"
      if truthyOpt startV = false then
        spliceOut errors (joinPath path "range.start") .REQUIRED_PROPERTY_MISSING ++
          [createError (joinPath path "range.start") .INVALID_RANGE startV
            (some "position object with line number") none none]
      else
        let e1 := addPositionSpecificValidation (startV.getD .null) (joinPath path "range.start") errors
        let endV := jsIndex rng "end"
        if truthyOpt endV then
          addPositionSpecificValidation (endV.getD .null) (joinPath path "range.end") e1
        else e1
    else errors
  | none => errors

/-- The partial-diagnostic refinement block of
`Validator.addRDFormatSpecificValidation`: message / location / severity
refinements on one diagnostic-like node's error list. -/
def refineDiagnosticErrors (data : JSONValue) (path : String)
    (errors : List ValidationError) : List ValidationError :=
  let eA :=
    if hasProp data "message" = false then
      spliceOut errors (joinPath path "message") .REQUIRED_PROPERTY_MISSING ++
        [createError (joinPath path "message") .MISSING_DIAGNOSTIC_MESSAGE none
          (some "string containing the diagnostic message") none none]
    else errors
  let eB :=
    if hasProp data "location" = false then
      spliceOut eA (joinPath path "location") .REQUIRED_PROPERTY_MISSING ++
        [createError (joinPath path "location") .MISSING_DIAGNOSTIC_LOCATION none
          (some "object with path and optional range") none none]
    else eA
  let eC :=
    match jsIndex data "location" with
    | some loc =>
      if truthy loc ∧ jsTypeof loc = "object" then
        addLocationSpecificValidation loc (joinPath path "location") eB
      else eB
    | none => eB
  match jsIndex data "severity" with
  | some sev =>
    if truthy sev ∧
        (match sev with
         | .str s => ["UNKNOWN_SEVERITY", "ERROR", "WARNING", "INFO"].contains s
         | _ => false) = false then
      spliceOut eC (joinPath path "severity") .ENUM_VALIDATION_FAILED ++
        [createError (joinPath path "severity") .INVALID_SEVERITY (some sev)
          (some "one of: UNKNOWN_SEVERITY, ERROR, WARNING, INFO") none none]
    else eC
  | none => eC

/-- The RDFormat-specific refinement pass
(`Validator.addRDFormatSpecificValidation`): replaces generic errors with
diagnostic-domain codes and recurses into diagnostic arrays.  The source
computes a set `_existingErrorPaths` it never reads (dead code).  Fueled; the
wrapper supplies sufficient fuel, and the recursion depth is bounded by the
structural size of the data. -/
def addRDFormatSpecificValidationF : Nat → ValidationOptions → JSONValue → String →
    List ValidationError → List ValidationWarning →
    List ValidationError × List ValidationWarning
  | 0, _, _, _, errors, warnings => (errors, warnings)
  | fuel + 1, opts, data, path, errors, warnings =>
    let e1 :=
      if isPartialDiagnostic data then refineDiagnosticErrors data path errors
      else errors
    let r2 : List ValidationError × List ValidationWarning :=
      match data with
      | .arr xs =>
        (xs.enum).foldl (fun acc (ia : Nat × JSONValue) =>
          if isPartialDiagnostic ia.2 then
            addRDFormatSpecificValidationF fuel opts ia.2 (joinPath path (natRepr ia.1)) acc.1 acc.2
          else acc) (e1, warnings)
      | _ => (e1, warnings)
    if isDiagnosticResult data then
      match jsIndex data "diagnostics" with
      | some (.arr ds) =>
        let r3 := (ds.enum).foldl (fun acc (ia : Nat × JSONValue) =>
          addRDFormatSpecificValidationF fuel opts ia.2
            (joinPath path ("diagnostics[" ++ natRepr ia.1 ++ "]")) acc.1 acc.2) r2
        if ds.isEmpty then
          (r3.1, r3.2 ++ [createWarning (joinPath path "diagnostics") .EMPTY_ARRAY
            (some "Diagnostic result contains no diagnostics. This may be intentional but is unusual.")])
        else r3
      | _ => r2
    else r2

/-! The public validator entry points. -/

/-- Validation of one value against one schema node (`Validator.validateField`). -/
def validateField (opts : ValidationOptions) (path : String) (value : JSONValue)
    (schema : JSONSchema) : ValidationResult :=
  let r := validateValueF (schemaSize schema + 1) opts value schema path
  ⟨r.1.isEmpty, r.1, r.2⟩

/-- Top-level validation (`Validator.validate`).  The input is
`Option JSONValue`; `none` models the JavaScript `undefined`. -/
def validate (opts : ValidationOptions) (data : Option JSONValue) : ValidationResult :=
  let run : JSONValue → ValidationResult := fun v =>
    let r := validateValueF (schemaSize rdformatSchema + 1) opts v rdformatSchema ""
    let r2 := addRDFormatSpecificValidationF (jsonValueSize v + 1) opts v "" r.1 r.2
    ⟨r2.1.isEmpty, r2.1, r2.2⟩
  match data with
  | none =>
    ⟨false, [createError "" .NULL_INPUT none (some "valid RDFormat data") none none], []⟩
  | some .null =>
    ⟨false, [createError "" .NULL_INPUT (some .null) (some "valid RDFormat data") none none], []⟩
  | some v =>
    match v with
    | .str s =>
      if jsTrim s = "" then
        ⟨false, [createError "" .EMPTY_INPUT (some v) (some "non-empty RDFormat data") none none], []⟩
      else run v
    | .obj fs =>
      if fs.isEmpty then
        ⟨false, [createError "" .EMPTY_INPUT (some v) (some "non-empty RDFormat object") none none], []⟩
      else run v
    | .arr xs =>
      if xs.isEmpty then
        ⟨false, [createError "" .EMPTY_ARRAY (some v) (some "non-empty array of diagnostics") none none], []⟩
      else run v
    | _ => run v

/-- State of the validator schema after a `validate` call.
`sortSchemasByLikelihood` receives `schema.oneOf` itself and sorts it in place
(`Array.prototype.sort` mutates), so whenever schema validation runs on a
`oneOf` schema the stored alternatives end up reordered.  The shipped
`rdformatSchema` contains a `oneOf` only at top level, so this function
captures the entire mutation of the stored schema for every input. -/
def validateSchemaAfter (schema : JSONSchema) (data : Option JSONValue) : JSONSchema :=
  match data with
  | none => schema
  | some .null => schema
  | some v =>
    let degenerate : Bool :=
      match v with
      | .str s => jsTrim s == ""
      | .obj fs => fs.isEmpty
      | .arr xs => xs.isEmpty
      | _ => false
    if degenerate then schema
    else
      match schema.oneOf with
      | some alts => schema.withOneOf (sortSchemasByLikelihood v alts)
      | none => schema

/-! The fixer (`Fixer` class).  Its option bag carries `strictMode` and
`fixLevel`; only `fixLevel` is ever read, so the functions below take the
level directly. -/

/-- Fix levels (`fixLevel: 'basic' | 'aggressive'`). -/
inductive FixLevel where
  | basic
  | aggressive
  deriving DecidableEq, Repr

/-- Record of one applied repair (`AppliedFix`). -/
structure AppliedFix where
  path : String
  message : String
  before : Option JSONValue
  after : Option JSONValue

/-- Result of a `fix` call (`FixResult`). -/
structure FixResult where
  fixed : Bool
  data : JSONValue
  appliedFixes : List AppliedFix
  remainingErrors : List ValidationError

/-- Reads the value at a parsed path (`Fixer.getValueAtPath`): returns
`undefined` as soon as the walk crosses `null` or `undefined`, otherwise
indexes step by step. -/
def getValueAtPath (obj : JSONValue) (pathParts : List String) : Option JSONValue :=
  go (some obj) pathParts
where
  go : Option JSONValue → List String → Option JSONValue
    | cur, [] => cur
    | none, _ :: _ => none
    | some .null, _ :: _ => none
    | some v, p :: ps => go (jsIndex v p) ps

/-- Container created by autovivification: an array when the next path
segment is numeric, else an object. -/
def nextContainer (nextPart : String) : JSONValue :=
  if isNumericStr nextPart then .arr [] else .obj []

/-- Functional update of an object field list: existing key updated in place,
new key appended (JavaScript property assignment order). -/
def setField : List (String × JSONValue) → String → JSONValue → List (String × JSONValue)
  | [], key, v => [(key, v)]
  | (k, w) :: rest, key, v => if k = key then (k, v) :: rest else (k, w) :: setField rest key v

/-- Functional update of an array at an index.  Writing past the end pads with
nulls (JavaScript creates holes that read back as `undefined`; the validator
never produces out-of-range indices, so the padding is never observed). -/
def listSet (xs : List JSONValue) (i : Nat) (v : JSONValue) : List JSONValue :=
  if i < xs.length then xs.set i v
  else xs ++ List.replicate (i - xs.length) .null ++ [v]

/-- One JavaScript assignment `doc[key] = v` on JSON-visible data, in strict
mode (the compiled sources all emit `use strict`, and class bodies are strict
regardless): assigning to a primitive or null receiver throws a `TypeError`,
modelled as `none`.  Assigning a non-numeric key to an array creates an
ordinary expando property on the array object — no throw, and nothing visible
to JSON — so the JSON view of the array is unchanged. -/
def jsAssign (doc : JSONValue) (key : String) (v : JSONValue) : Option JSONValue :=
  match doc with
  | .obj fs => some (.obj (setField fs key v))
  | .arr xs =>
    if isNumericStr key then some (.arr (listSet xs (strToNatD key) v)) else some (.arr xs)
  | _ => none

/-- Writes a value at a parsed path with autovivification
(`Fixer.setValueAtPath`): missing or null intermediate nodes are created as
arrays or objects depending on the next segment.  In strict mode the walk
throws a `TypeError` (modelled as `none`) when it must write into a primitive
or null node: an intermediate step on a primitive reads `undefined` and then
attempts the autovivifying write, and the final assignment itself throws on a
primitive receiver.  (Reading a character index of a string would not be
`undefined` in JavaScript; validator-produced paths never index into strings,
and the model treats such reads as `undefined`.) -/
def setValueAtPath (doc : JSONValue) (pathParts : List String) (v : JSONValue) :
    Option JSONValue :=
  match pathParts with
  | [] => some doc
  | [last] => jsAssign doc last v
  | p :: rest =>
    match doc with
    | .null => none
    | .bool _ => none
    | .num _ => none
    | .str _ => none
    | _ =>
      let child :=
        match jsIndex doc p with
        | none => nextContainer (rest.headD "")
        | some .null => nextContainer (rest.headD "")
        | some c => c
      match setValueAtPath child rest v with
      | some newChild => jsAssign doc p newChild
      | none => none

mutual

/-- Deep structural copy of a value (`Fixer.deepClone`): primitives returned
as is, arrays mapped, own enumerable properties copied. -/
def deepClone : JSONValue → JSONValue
  | .null => .null
  | .bool b => .bool b
  | .num q => .num q
  | .str s => .str s
  | .arr xs => .arr (deepCloneList xs)
  | .obj fs => .obj (deepCloneFields fs)

/-- Element-wise deep copy of an array. -/
def deepCloneList : List JSONValue → List JSONValue
  | [] => []
  | x :: xs => deepClone x :: deepCloneList xs

/-- Field-wise deep copy of an object. -/
def deepCloneFields : List (String × JSONValue) → List (String × JSONValue)
  | [] => []
  | (k, v) :: fs => (k, deepClone v) :: deepCloneFields fs

end

/-- Keyword scan of an `expected` text (`Fixer.extractExpectedType`). -/
def extractExpectedType (expected : String) : String :=
  if strIncludes expected "string" then "string"
  else if strIncludes expected "number" then "number"
  else if strIncludes expected "boolean" then "boolean"
  else if strIncludes expected "array" then "array"
  else if strIncludes expected "object" then "object"
  else "unknown"

/-- Decimal value of a digit character list. -/
def digitsVal (cs : List Char) : Nat := charsToNat cs 0

/-- Parses an unsigned decimal literal, with an optional fractional part.
Integer values are built by the integer cast (which reduces in the kernel);
the fractional branch uses rational division and is never evaluated by the
theorems in this file. -/
def parseUnsigned (cs : List Char) : Option ℚ :=
  match cs.span Char.isDigit with
  | (ds, []) => if ds.isEmpty then none else some ((digitsVal ds : Int) : ℚ)
  | (ds, c :: fs) =>
    if c = '.' ∧ fs.all Char.isDigit ∧ (ds.isEmpty = false ∨ fs.isEmpty = false) then
      if fs.isEmpty then some ((digitsVal ds : Int) : ℚ)
      else some (((digitsVal ds : Int) : ℚ) + ((digitsVal fs : Int) : ℚ) / ((10 : ℚ) ^ fs.length))
    else none

/-- Model of `Number(string)` on the strings this domain can contain:
whitespace-trimmed, empty string is 0, signed decimal literals parse, anything
else is NaN (`none`).  (Hex, exponent and Infinity forms would also be numbers
in JavaScript; they never occur in the claims and parse to `none` here.  Both
`canFix` and `applyFix` call this same function, so their agreement does not
depend on its edge cases.) -/
def jsStringToNumber (s : String) : Option ℚ :=
  let t := jsTrim s
  if t = "" then some 0
  else
    match t.data with
    | '-' :: rest => (parseUnsigned rest).map (fun q => -q)
    | '+' :: rest => parseUnsigned rest
    | cs => parseUnsigned cs

/-- Type coercion attempted by `Fixer.fixTypeMismatch`, as a function of the
expected type keyword and the current value (`none` when no coercion applies). -/
def tmCoerce (expectedType : String) (cur : Option JSONValue) : Option JSONValue :=
  if expectedType = "string" then
    match cur with
    | some (.num q) => some (.str (ratDisplay q))
    | some (.bool b) => some (.str (if b then "true" else "false"))
    | some .null => some (.str "")
    | none => some (.str "")
    | _ => none
  else if expectedType = "number" then
    match cur with
    | some (.str s) => (jsStringToNumber s).map JSONValue.num
    | some (.bool b) => some (.num (if b then 1 else 0))
    | _ => none
  else if expectedType = "boolean" then
    match cur with
    | some (.str s) => some (.bool (jsToLower s == "true"))
    | some (.num q) => some (.bool (if q = 0 then false else true))
    | _ => none
  else if expectedType = "array" then
    match cur with
    | some (.arr _) => none
    | some .null => none
    | none => none
    | some v => some (.arr [v])
  else if expectedType = "object" then
    match cur with
    | some (.obj _) => none
    | some .null => none
    | some (.arr _) => some (.obj [])
    | _ => some (.obj [])
  else none

/-- Coercibility test of `Fixer.canFixTypeMismatch`, on the error's recorded
value and expected text. -/
def tmCoercible (expectedType : String) (cur : Option JSONValue) : Bool :=
  if expectedType = "string" then
    match cur with
    | some (.num _) => true
    | some (.bool _) => true
    | some .null => true
    | none => true
    | _ => false
  else if expectedType = "number" then
    match cur with
    | some (.str s) => (jsStringToNumber s).isSome
    | some (.bool _) => true
    | _ => false
  else if expectedType = "boolean" then
    match cur with
    | some (.str _) => true
    | some (.num _) => true
    | _ => false
  else if expectedType = "array" then
    match cur with
    | some (.arr _) => false
    | some .null => false
    | none => false
    | some _ => true
  else if expectedType = "object" then
    match cur with
    | some (.obj _) => false
    | some .null => false
    | _ => true
  else false

/-- The fixability test for `TYPE_MISMATCH` (`Fixer.canFixTypeMismatch`). -/
def canFixTypeMismatch (e : ValidationError) : Bool :=
  tmCoercible (extractExpectedType (e.expected.getD "")) e.value

/-- The property names with known defaults (`fixableProperties` in
`Fixer.canFixMissingProperty`). -/
def fixableProperties : List String :=
  ["message", "location", "path", "line", "column", "severity", "diagnostics", "name"]

/-- Tests whether the `expected` text names a basic type. -/
def expectedHasTypeWord (expected : Option String) : Bool :=
  match expected with
  | some ex =>
    strIncludes ex "string" || strIncludes ex "number" || strIncludes ex "array" ||
      strIncludes ex "object"
  | none => false

/-- The fixability test for `REQUIRED_PROPERTY_MISSING`
(`Fixer.canFixMissingProperty`). -/
def canFixMissingProperty (e : ValidationError) : Bool :=
  (match (parsePath e.path).getLast? with
   | some n => fixableProperties.contains n
   | none => false) || expectedHasTypeWord e.expected

/-- Default value chosen by `Fixer.fixMissingProperty`, by property name and
expected-type keyword. -/
def missingDefault (propertyName : Option String) (expected : Option String) :
    Option JSONValue :=
  match propertyName with
  | some "message" => some (.str "No message provided")
  | some "location" => some (.obj [("path", .str "unknown")])
  | some "path" => some (.str "unknown")
  | some "line" => some (.num 1)
  | some "column" => some (.num 1)
  | some "severity" => some (.str "UNKNOWN_SEVERITY")
  | some "diagnostics" => some (.arr [])
  | some "name" => some (.str "unknown")
  | _ =>
    match expected with
    | some ex =>
      if strIncludes ex "string" then some (.str "")
      else if strIncludes ex "number" then some (.num 0)
      else if strIncludes ex "array" then some (.arr [])
      else if strIncludes ex "object" then some (.obj [])
      else none
    | none => none

/-- Default string chosen by `Fixer.fixEmptyString`, by property name. -/
def emptyStringDefault (propertyName : Option String) : String :=
  match propertyName with
  | some "message" => "No message provided"
  | _ => "unknown"

/-- First decimal number following an occurrence of `key` in a character list
(the `/at least (\d+)/` message scan of `Fixer.fixNumberViolation`). -/
def extractBoundAfter (key : List Char) : List Char → Option Nat
  | [] => none
  | c :: rest =>
    if listPrefix key (c :: rest) then
      let ds := ((c :: rest).drop key.length).takeWhile Char.isDigit
      if ds.isEmpty then extractBoundAfter key rest else some (charsToNat ds 0)
    else extractBoundAfter key rest

/-- JavaScript `ToNumber` on the values reachable here, for `Math.max` /
`Math.min` (`none` is NaN).  Arrays and plain objects are approximated as NaN;
validator-produced number-violation errors always sit on numeric values, so
those branches are unreachable in the theorems below. -/
def jsToNumber : Option JSONValue → Option ℚ
  | none => none
  | some .null => some 0
  | some (.bool b) => some (if b then 1 else 0)
  | some (.num q) => some q
  | some (.str s) => jsStringToNumber s
  | some (.arr _) => none
  | some (.obj _) => none

/-- Repair for `TYPE_MISMATCH` (`Fixer.fixTypeMismatch`): the written value
and the updated document, `(none, data)` when no coercion applies, and `none`
for a thrown `TypeError` from the write. -/
def fixTypeMismatch (data : JSONValue) (pathParts : List String) (e : ValidationError) :
    Option (Option JSONValue × JSONValue) :=
  match tmCoerce (extractExpectedType (e.expected.getD "")) (getValueAtPath data pathParts) with
  | some fv =>
    match setValueAtPath data pathParts fv with
    | some nd => some (some fv, nd)
    | none => none
  | none => some (none, data)

/-- Repair for missing properties (`Fixer.fixMissingProperty`). -/
def fixMissingProperty (data : JSONValue) (pathParts : List String) (e : ValidationError) :
    Option (Option JSONValue × JSONValue) :=
  match missingDefault pathParts.getLast? e.expected with
  | some dv =>
    match setValueAtPath data pathParts dv with
    | some nd => some (some dv, nd)
    | none => none
  | none => some (none, data)

/-- Repair for empty strings (`Fixer.fixEmptyString`), aggressive level only. -/
def fixEmptyString (lvl : FixLevel) (data : JSONValue) (pathParts : List String) :
    Option (Option JSONValue × JSONValue) :=
  if lvl ≠ .aggressive then some (none, data)
  else
    let dv : JSONValue := .str (emptyStringDefault pathParts.getLast?)
    match setValueAtPath data pathParts dv with
    | some nd => some (some dv, nd)
    | none => none

/-- Repair for number bound violations (`Fixer.fixNumberViolation`),
aggressive level only: clamps against the bound parsed from the error
message (default 1 for minimums, 1000 for maximums).  `Math.max` / `Math.min`
with a NaN operand yields NaN in JavaScript; that operand never arises from
validator-produced errors, and the model uses the bound there. -/
def fixNumberViolation (lvl : FixLevel) (data : JSONValue) (pathParts : List String)
    (e : ValidationError) : Option (Option JSONValue × JSONValue) :=
  if lvl ≠ .aggressive then some (none, data)
  else
    let cur := jsToNumber (getValueAtPath data pathParts)
    if e.code = .MIN_VALUE_VIOLATION then
      let minV := (extractBoundAfter "at least ".data e.message.data).getD 1
      let fv : JSONValue := .num (match cur with | some q => (if q ≤ (minV : ℚ) then (minV : ℚ) else q) | none => (minV : ℚ))
      match setValueAtPath data pathParts fv with
      | some nd => some (some fv, nd)
      | none => none
    else if e.code = .MAX_VALUE_VIOLATION then
      let maxV := (extractBoundAfter "at most ".data e.message.data).getD 1000
      let fv : JSONValue := .num (match cur with | some q => (if (maxV : ℚ) ≤ q then (maxV : ℚ) else q) | none => (maxV : ℚ))
      match setValueAtPath data pathParts fv with
      | some nd => some (some fv, nd)
      | none => none
    else some (none, data)

/-- Case-insensitive severity synonym table of `Fixer.fixInvalidSeverity`. -/
def normalizeSeverity (cur : Option JSONValue) : String :=
  match cur with
  | some (.str s) =>
    let n := jsToLower s
    if n = "error" ∨ n = "err" ∨ n = "fatal" then "ERROR"
    else if n = "warning" ∨ n = "warn" ∨ n = "caution" then "WARNING"
    else if n = "info" ∨ n = "information" ∨ n = "note" then "INFO"
    else "UNKNOWN_SEVERITY"
  | _ => "UNKNOWN_SEVERITY"

/-- Repair for `INVALID_SEVERITY` (`Fixer.fixInvalidSeverity`): always
attempts the write, at every level. -/
def fixInvalidSeverity (data : JSONValue) (pathParts : List String) :
    Option (Option JSONValue × JSONValue) :=
  let fv : JSONValue := .str (normalizeSeverity (getValueAtPath data pathParts))
  match setValueAtPath data pathParts fv with
  | some nd => some (some fv, nd)
  | none => none

/-- Repair for `INVALID_POSITION` (`Fixer.fixInvalidPosition`), aggressive
level only: resets a bad `line` / `column` leaf to 1, leaves valid numbers
unfixed.  The write throws (`none`) when the path's parent is a primitive. -/
def fixInvalidPosition (lvl : FixLevel) (data : JSONValue) (pathParts : List String) :
    Option (Option JSONValue × JSONValue) :=
  if lvl ≠ .aggressive then some (none, data)
  else
    let propertyName := pathParts.getLast?
    if propertyName = some "line" ∨ propertyName = some "column" then
      match getValueAtPath data pathParts with
      | some (.num q) =>
        if q < 1 then
          match setValueAtPath data pathParts (.num 1) with
          | some nd => some (some (.num 1), nd)
          | none => none
        else some (none, data)
      | _ =>
        match setValueAtPath data pathParts (.num 1) with
        | some nd => some (some (.num 1), nd)
        | none => none
    else some (none, data)

/-- The fixability predicate (`Fixer.canFix`), keyed by error code. -/
def canFix (lvl : FixLevel) (e : ValidationError) : Bool :=
  match e.code with
  | .TYPE_MISMATCH => canFixTypeMismatch e
  | .REQUIRED_PROPERTY_MISSING => canFixMissingProperty e
  | .EMPTY_STRING => lvl == .aggressive
  | .MIN_VALUE_VIOLATION => lvl == .aggressive
  | .MAX_VALUE_VIOLATION => lvl == .aggressive
  | .MISSING_DIAGNOSTIC_MESSAGE => true
  | .MISSING_DIAGNOSTIC_LOCATION => true
  | .INVALID_SEVERITY => true
  | .INVALID_POSITION => lvl == .aggressive
  | _ => false

/-- User-facing description of one applied repair (`Fixer.getFixMessage`). -/
def getFixMessage (code : ValidationErrorCode) (before after : Option JSONValue) : String :=
  match code with
  | .TYPE_MISMATCH =>
    "Converted " ++ typeofDisplay before ++ " value '" ++ jsDisplay before ++ "' to " ++
      typeofDisplay after ++ " '" ++ jsDisplay after ++ "'"
  | .REQUIRED_PROPERTY_MISSING =>
    "Added missing property with default value '" ++ jsDisplay after ++ "'"
  | .MISSING_DIAGNOSTIC_MESSAGE =>
    "Added missing property with default value '" ++ jsDisplay after ++ "'"
  | .MISSING_DIAGNOSTIC_LOCATION =>
    "Added missing property with default value '" ++ jsDisplay after ++ "'"
  | .EMPTY_STRING =>
    "Replaced empty string with default value '" ++ jsDisplay after ++ "'"
  | .MIN_VALUE_VIOLATION =>
    "Adjusted value from " ++ jsDisplay before ++ " to minimum allowed value " ++ jsDisplay after
  | .MAX_VALUE_VIOLATION =>
    "Adjusted value from " ++ jsDisplay before ++ " to maximum allowed value " ++ jsDisplay after
  | .INVALID_SEVERITY =>
    "Normalized severity from '" ++ jsDisplay before ++ "' to '" ++ jsDisplay after ++ "'"
  | .INVALID_POSITION =>
    "Fixed invalid position value from " ++ jsDisplay before ++ " to " ++ jsDisplay after
  | _ => "Fixed value from '" ++ jsDisplay before ++ "' to '" ++ jsDisplay after ++ "'"

/-- One repair attempt (`Fixer.applyFix`): checks `canFix`, dispatches on the
code, mutates the passed document, and reports what changed.  A `TypeError`
thrown by the write propagates (there is no try/catch anywhere in the Fixer),
modelled as `none`. -/
def applyFix (lvl : FixLevel) (data : JSONValue) (e : ValidationError) :
    Option (Option AppliedFix × JSONValue) :=
  if canFix lvl e = false then some (none, data)
  else
    let pathParts := parsePath e.path
    let before := getValueAtPath data pathParts
    let step : Option (Option JSONValue × JSONValue) :=
      match e.code with
      | .TYPE_MISMATCH => fixTypeMismatch data pathParts e
      | .REQUIRED_PROPERTY_MISSING => fixMissingProperty data pathParts e
      | .MISSING_DIAGNOSTIC_MESSAGE => fixMissingProperty data pathParts e
      | .MISSING_DIAGNOSTIC_LOCATION => fixMissingProperty data pathParts e
      | .EMPTY_STRING => fixEmptyString lvl data pathParts
      | .MIN_VALUE_VIOLATION => fixNumberViolation lvl data pathParts e
      | .MAX_VALUE_VIOLATION => fixNumberViolation lvl data pathParts e
      | .INVALID_SEVERITY => fixInvalidSeverity data pathParts
      | .INVALID_POSITION => fixInvalidPosition lvl data pathParts
      | _ => some (none, data)
    match step with
    | some (some after, newData) =>
      some (some ⟨e.path, getFixMessage e.code before (some after), before, some after⟩, newData)
    | some (none, newData) => some (none, newData)
    | none => none

/-- Sequential repair over the error list (the loop body of `Fixer.fix`),
threading the mutated clone and accumulating applied fixes and remaining
errors in order; a thrown `TypeError` escapes the loop (`none`). -/
def fixLoop (lvl : FixLevel) : List ValidationError → JSONValue → List AppliedFix →
    List ValidationError → Option (JSONValue × List AppliedFix × List ValidationError)
  | [], doc, af, re => some (doc, af, re)
  | e :: rest, doc, af, re =>
    match applyFix lvl doc e with
    | some (some fx, newDoc) => fixLoop lvl rest newDoc (af ++ [fx]) re
    | some (none, newDoc) => fixLoop lvl rest newDoc af (re ++ [e])
    | none => none

/-- The fixer entry point (`Fixer.fix`): deep-clones the input, attempts one
repair per reported error in order, and reports the outcome; `none` models
the uncaught `TypeError` escaping `fix` itself. -/
def fix (lvl : FixLevel) (data : JSONValue) (validationResult : ValidationResult) :
    Option FixResult :=
  match fixLoop lvl validationResult.errors (deepClone data) [] [] with
  | some r => some ⟨r.2.1.isEmpty = false, r.1, r.2.1, r.2.2⟩
  | none => none

/-! Auxiliary predicates for the canFix / applyFix agreement analysis. -/

/-- Tests whether a string is usable as a single path segment: nonempty and
free of the separator characters `.`, `[`, `]`. -/
def segPlain (s : String) : Bool :=
  s ≠ "" && s.data.all (fun c => !isSepChar c)

mutual
/-- All property names reachable in a schema tree are plain path segments
(true of the shipped RDFormat schema). -/
def schemaSegsOk : JSONSchema → Bool
  | .mk _ _ props items _ _ _ _ _ _ _ oneOf =>
    schemaPropsOk props && schemaItemsOk items && schemaOneOfOk oneOf

/-- Plain-segment check of an optional property list. -/
def schemaPropsOk : Option (List (String × JSONSchema)) → Bool
  | none => true
  | some l => schemaPlistOk l

/-- Plain-segment check of a property list. -/
def schemaPlistOk : List (String × JSONSchema) → Bool
  | [] => true
  | (n, s) :: rest => segPlain n && schemaSegsOk s && schemaPlistOk rest

/-- Plain-segment check of an optional items schema. -/
def schemaItemsOk : Option JSONSchema → Bool
  | none => true
  | some s => schemaSegsOk s

/-- Plain-segment check of an optional alternative list. -/
def schemaOneOfOk : Option (List JSONSchema) → Bool
  | none => true
  | some l => schemaSlistOk l

/-- Plain-segment check of an alternative list. -/
def schemaSlistOk : List JSONSchema → Bool
  | [] => true
  | s :: rest => schemaSegsOk s && schemaSlistOk rest
end

/-- Invariant connecting a validation error to the document it was produced
from: the five error codes whose repair touches the document through the
error's path carry the facts the fixer relies on.  `TYPE_MISMATCH` records the
value currently sitting at its path; the two missing-diagnostic codes sit on a
path ending in the property they report; `INVALID_POSITION` sits on a
`line` / `column` path whose current value fails the position test;
`INVALID_SEVERITY` sits on a path whose strict-mode write cannot throw (its
parent is an object the read walk reaches). -/
def ErrOK (d : JSONValue) (e : ValidationError) : Prop :=
  (e.code = ValidationErrorCode.TYPE_MISMATCH →
    e.value = getValueAtPath d (parsePath e.path)) ∧
  (e.code = ValidationErrorCode.MISSING_DIAGNOSTIC_MESSAGE →
    (parsePath e.path).getLast? = some "message") ∧
  (e.code = ValidationErrorCode.MISSING_DIAGNOSTIC_LOCATION →
    (parsePath e.path).getLast? = some "location") ∧
  (e.code = ValidationErrorCode.INVALID_POSITION →
    ((parsePath e.path).getLast? = some "line" ∨
      (parsePath e.path).getLast? = some "column") ∧
    positionFieldBad (getValueAtPath d (parsePath e.path)) = true) ∧
  (e.code = ValidationErrorCode.INVALID_SEVERITY →
    ∀ w : JSONValue, (setValueAtPath d (parsePath e.path) w).isSome = true)

/-! Shared lemmas. -/

/-- Size-bounded simultaneous proof that the deep clone is structurally equal
to its input. -/
theorem deepClone_id_bounded : ∀ n : Nat,
    (∀ v, jsonValueSize v ≤ n → deepClone v = v) ∧
    (∀ xs, jsonListSize xs ≤ n → deepCloneList xs = xs) ∧
    (∀ fs, jsonFieldsSize fs ≤ n → deepCloneFields fs = fs) := by
  intro n
  induction n with
  | zero =>
    refine ⟨?_, ?_, ?_⟩
    · intro v h; cases v <;> simp [jsonValueSize] at h
    · intro xs h
      cases xs with
      | nil => rfl
      | cons x xs => simp [jsonListSize] at h
    · intro fs h
      cases fs with
      | nil => rfl
      | cons kv fs => cases kv; simp [jsonFieldsSize] at h
  | succ n ih =>
    refine ⟨?_, ?_, ?_⟩
    · intro v h
      cases v with
      | null => rfl
      | bool b => rfl
      | num q => rfl
      | str s => rfl
      | arr xs =>
        simp only [jsonValueSize] at h
        simp only [deepClone, ih.2.1 xs (by omega)]
      | obj fs =>
        simp only [jsonValueSize] at h
        simp only [deepClone, ih.2.2 fs (by omega)]
    · intro xs h
      cases xs with
      | nil => rfl
      | cons x xs =>
        simp only [jsonListSize] at h
        simp only [deepCloneList, ih.1 x (by omega), ih.2.1 xs (by omega)]
    · intro fs h
      cases fs with
      | nil => rfl
      | cons kv fs =>
        cases kv with
        | mk k v =>
          simp only [jsonFieldsSize] at h
          simp only [deepCloneFields, ih.1 v (by omega), ih.2.2 fs (by omega)]

/-- The fixer's deep clone returns a structurally equal value. -/
theorem deepClone_id (v : JSONValue) : deepClone v = v :=
  (deepClone_id_bounded (jsonValueSize v)).1 v le_rfl

/-- Ordered insertion produces a permutation. -/
theorem sortInsert_perm (key : JSONSchema → Score) (x : JSONSchema) :
    ∀ l : List JSONSchema, (sortInsert key x l).Perm (x :: l) := by
  intro l
  induction l with
  | nil => exact List.Perm.refl _
  | cons y ys ih =>
    simp only [sortInsert]
    split
    · exact List.Perm.refl _
    · exact List.Perm.trans (List.Perm.cons y ih) (List.Perm.swap x y ys)

/-- The likelihood sort permutes the alternative list. -/
theorem sortSchemasByLikelihood_perm (value : JSONValue) :
    ∀ l : List JSONSchema, (sortSchemasByLikelihood value l).Perm l := by
  intro l
  induction l with
  | nil => exact List.Perm.refl _
  | cons s rest ih =>
    simp only [sortSchemasByLikelihood]
    exact List.Perm.trans (sortInsert_perm _ s (sortSchemasByLikelihood value rest))
      (List.Perm.cons s ih)

/-- Membership transfers across the likelihood sort. -/
theorem mem_sortSchemasByLikelihood (value : JSONValue) (l : List JSONSchema) (s : JSONSchema) :
    s ∈ sortSchemasByLikelihood value l ↔ s ∈ l :=
  (sortSchemasByLikelihood_perm value l).mem_iff

/-! Claim theorems. -/

/-- C3: validating the document with a `message` and no `location` yields
`valid: false` and exactly one error, `MISSING_DIAGNOSTIC_LOCATION` at path
`location`; in particular the error list contains no
`REQUIRED_PROPERTY_MISSING` at that path — the refinement pass removed the
generic error of the best-matching `oneOf` alternative and replaced it with
the diagnostic-specific code. -/
theorem validate_message_only_missing_location :
    (validate defaultOptions (some (.obj [("message", .str "x")]))).valid = false ∧
    (validate defaultOptions (some (.obj [("message", .str "x")]))).errors.map
      (fun e => (e.path, e.code)) = [("location", .MISSING_DIAGNOSTIC_LOCATION)] ∧
    (validate defaultOptions (some (.obj [("message", .str "x")]))).errors.countP
      (fun e => e.path == "location" && e.code == .REQUIRED_PROPERTY_MISSING) = 0 := by
  refine ⟨by decide, by decide, by decide⟩

/-- C2: on the document whose `location.range.start.line` is the string "x",
`validate` reports both the generic `TYPE_MISMATCH` and the domain-specific
`INVALID_POSITION` at the same path `location.range.start.line` — the
refinement pass splices out only `MIN_VALUE_VIOLATION`, contradicting the
stated same-path exclusion (and the dedup intent recorded in the source
comments around `_existingErrorPaths`). -/
theorem validate_type_mismatch_and_invalid_position_same_path :
    (validate defaultOptions (some (.obj [("message", .str "x"),
      ("location", .obj [("path", .str "a"),
        ("range", .obj [("start", .obj [("line", .str "x")])])])]))).errors.map
      (fun e => (e.path, e.code)) =
      [("location.range.start.line", .TYPE_MISMATCH),
       ("location.range.start.line", .INVALID_POSITION)] := by
  decide

/-- C8: degenerate top-level inputs are classified as a single terminal error
with no further validation: null (or undefined) input gives exactly one
`NULL_INPUT` error at path `""`; a whitespace-only string gives exactly one
`EMPTY_INPUT`; an object with no keys gives exactly one `EMPTY_INPUT` at path
`""`; an empty array gives exactly one `EMPTY_ARRAY`; in every case `valid` is
false and the warnings are empty. -/
theorem validate_degenerate_inputs_terminal :
    (∀ opts : ValidationOptions,
      (validate opts none).valid = false ∧ (validate opts none).warnings = [] ∧
      (validate opts none).errors.map (fun e => (e.path, e.code)) = [("", .NULL_INPUT)]) ∧
    (∀ opts : ValidationOptions,
      (validate opts (some .null)).valid = false ∧ (validate opts (some .null)).warnings = [] ∧
      (validate opts (some .null)).errors.map (fun e => (e.path, e.code)) =
        [("", .NULL_INPUT)]) ∧
    (∀ (opts : ValidationOptions) (s : String), jsTrim s = "" →
      (validate opts (some (.str s))).valid = false ∧
      (validate opts (some (.str s))).warnings = [] ∧
      (validate opts (some (.str s))).errors.map (fun e => (e.path, e.code)) =
        [("", .EMPTY_INPUT)]) ∧
    (∀ opts : ValidationOptions,
      (validate opts (some (.obj []))).valid = false ∧
      (validate opts (some (.obj []))).warnings = [] ∧
      (validate opts (some (.obj []))).errors.map (fun e => (e.path, e.code)) =
        [("", .EMPTY_INPUT)]) ∧
    (∀ opts : ValidationOptions,
      (validate opts (some (.arr []))).valid = false ∧
      (validate opts (some (.arr []))).warnings = [] ∧
      (validate opts (some (.arr []))).errors.map (fun e => (e.path, e.code)) =
        [("", .EMPTY_ARRAY)]) := by
  refine ⟨fun opts => ⟨rfl, rfl, rfl⟩, fun opts => ⟨rfl, rfl, rfl⟩, ?_,
    fun opts => ⟨rfl, rfl, rfl⟩, fun opts => ⟨rfl, rfl, rfl⟩⟩
  intro opts s h
  simp [validate, h, createError]

/-- C8 witness: instantiation of the whitespace-only-string case at `" "`. -/
theorem validate_degenerate_inputs_terminal_witness :
    jsTrim " " = "" ∧
    ((validate defaultOptions (some (.str " "))).valid = false ∧
     (validate defaultOptions (some (.str " "))).warnings = [] ∧
     (validate defaultOptions (some (.str " "))).errors.map (fun e => (e.path, e.code)) =
       [("", .EMPTY_INPUT)]) :=
  ⟨by decide, validate_degenerate_inputs_terminal.2.2.1 defaultOptions " " (by decide)⟩

/-- C9 counterexample: validating the array `[1]` reorders the stored
top-level `oneOf` alternatives in place (the likelihood sort is
`Array.prototype.sort` on `schema.oneOf` itself), so the schema observed by
`getSchema()` after the call differs from the original declaration order
`[diagnostic, array, result]`. -/
theorem validate_mutates_schema_counterexample :
    ((validateSchemaAfter rdformatSchema (some (.arr [.num 1]))).oneOf.getD []).map
      JSONSchema.type = [some "array", some "object", some "object"] ∧
    (rdformatSchema.oneOf.getD []).map JSONSchema.type =
      [some "object", some "array", some "object"] ∧
    validateSchemaAfter rdformatSchema (some (.arr [.num 1])) ≠ rdformatSchema := by
  refine ⟨by decide, by decide, fun h => ?_⟩
  have h2 := congrArg (fun sc => (JSONSchema.oneOf sc |>.getD []).map JSONSchema.type) h
  simp only at h2
  exact absurd h2 (by decide)

/-- Case analysis on the schema state after a `validate` call: either it is
unchanged, or its `oneOf` list has been re-sorted for the validated value. -/
theorem validateSchemaAfter_cases (schema : JSONSchema) (data : Option JSONValue) :
    validateSchemaAfter schema data = schema ∨
    ∃ v alts, schema.oneOf = some alts ∧
      validateSchemaAfter schema data = schema.withOneOf (sortSchemasByLikelihood v alts) := by
  cases data with
  | none => exact Or.inl rfl
  | some v =>
    cases v with
    | null => exact Or.inl rfl
    | bool b =>
      cases hs : schema.oneOf with
      | none => left; simp [validateSchemaAfter, hs]
      | some alts => right; exact ⟨.bool b, alts, rfl, by simp [validateSchemaAfter, hs]⟩
    | num q =>
      cases hs : schema.oneOf with
      | none => left; simp [validateSchemaAfter, hs]
      | some alts => right; exact ⟨.num q, alts, rfl, by simp [validateSchemaAfter, hs]⟩
    | str t =>
      by_cases hd : jsTrim t = ""
      · left; simp [validateSchemaAfter, hd]
      · cases hs : schema.oneOf with
        | none => left; simp [validateSchemaAfter, hs, hd]
        | some alts => right; exact ⟨.str t, alts, rfl, by simp [validateSchemaAfter, hs, hd]⟩
    | arr xs =>
      by_cases hd : xs.isEmpty
      · left; simp [validateSchemaAfter, hd]
      · cases hs : schema.oneOf with
        | none => left; simp [validateSchemaAfter, hs, hd]
        | some alts => right; exact ⟨.arr xs, alts, rfl, by simp [validateSchemaAfter, hs, hd]⟩
    | obj fs =>
      by_cases hd : fs.isEmpty
      · left; simp [validateSchemaAfter, hd]
      · cases hs : schema.oneOf with
        | none => left; simp [validateSchemaAfter, hs, hd]
        | some alts => right; exact ⟨.obj fs, alts, rfl, by simp [validateSchemaAfter, hs, hd]⟩

/-- C9 amended: a `validate` call changes no validator state other than
possibly reordering the `oneOf` alternatives of the stored schema in place;
every other schema field is unchanged and the alternatives after the call are
a permutation of the alternatives before it. -/
theorem validate_reorders_oneof_only (schema : JSONSchema) (data : Option JSONValue) :
    (validateSchemaAfter schema data).type = schema.type ∧
    (validateSchemaAfter schema data).required = schema.required ∧
    (validateSchemaAfter schema data).properties = schema.properties ∧
    (validateSchemaAfter schema data).items = schema.items ∧
    (validateSchemaAfter schema data).enum = schema.enum ∧
    (validateSchemaAfter schema data).minimum = schema.minimum ∧
    (validateSchemaAfter schema data).maximum = schema.maximum ∧
    (validateSchemaAfter schema data).minLength = schema.minLength ∧
    (validateSchemaAfter schema data).maxLength = schema.maxLength ∧
    (validateSchemaAfter schema data).pattern = schema.pattern ∧
    (validateSchemaAfter schema data).additionalProperties = schema.additionalProperties ∧
    (validateSchemaAfter schema data).oneOf.isSome = schema.oneOf.isSome ∧
    ((validateSchemaAfter schema data).oneOf.getD []).Perm (schema.oneOf.getD []) := by
  rcases validateSchemaAfter_cases schema data with h | ⟨v, alts, hs, h⟩
  · rw [h]
    exact ⟨rfl, rfl, rfl, rfl, rfl, rfl, rfl, rfl, rfl, rfl, rfl, rfl, List.Perm.refl _⟩
  · rw [h]
    cases schema with
    | mk t r p i e mn mx ml xl pa ap oo =>
      simp only [JSONSchema.oneOf] at hs
      subst hs
      refine ⟨rfl, rfl, rfl, rfl, rfl, rfl, rfl, rfl, rfl, rfl, rfl, rfl, ?_⟩
      simpa [JSONSchema.withOneOf, JSONSchema.oneOf] using sortSchemasByLikelihood_perm v alts

/-- C10 counterexample: on a string schema carrying both an enum and a minimum
length, the whitespace-only value `" "` produces only `ENUM_VALIDATION_FAILED`;
the enum gate preempts every string constraint, so no `EMPTY_STRING` error is
reported even though the schema node has `type: "string"`, `minLength` greater
than zero and the value trims to the empty string. -/
theorem validateField_enum_preempts_empty_string :
    ((validateField defaultOptions "p" (.str " ")
        (.mk (some "string") none none none (some ["A"]) none none (some 1) none none
          none none)).errors.map (fun e => (e.path, e.code)) =
      [("p", ValidationErrorCode.ENUM_VALIDATION_FAILED)]) ∧
    jsTrim " " = "" := by
  exact ⟨by decide, by decide⟩

/-- The errors of `validateField` on a string value against a plain string
schema (no `oneOf`, no `enum`) are exactly the string constraint errors. -/
theorem validateField_string_schema_errors (opts : ValidationOptions) (path s : String)
    (schema : JSONSchema) (h1 : schema.oneOf = none) (h2 : schema.enum = none)
    (h3 : schema.type = some "string") :
    (validateField opts path (.str s) schema).errors =
      stringConstraintErrors schema (.str s) path := by
  simp [validateField, validateValueF, h1, h2, h3, validateType, numberConstraintErrors]

/-- Count form of the whitespace-string branch of `stringConstraintErrors`:
exactly one `EMPTY_STRING` error at the node path and no
`MIN_LENGTH_VIOLATION`. -/
theorem stringConstraintErrors_whitespace_counts (schema : JSONSchema) (path s : String)
    (ml : Nat) (h3 : schema.type = some "string") (h4 : schema.minLength = some ml)
    (h5 : 0 < ml) (h6 : jsTrim s = "") :
    (stringConstraintErrors schema (.str s) path).countP
        (fun e => e.path == path && e.code == ValidationErrorCode.EMPTY_STRING) = 1 ∧
    (stringConstraintErrors schema (.str s) path).countP
        (fun e => e.code == ValidationErrorCode.MIN_LENGTH_VIOLATION) = 0 := by
  simp only [stringConstraintErrors, h3, h4, h6, and_true, if_true]
  rw [if_pos h5]
  cases hx : schema.maxLength with
  | none =>
    cases hp : schema.pattern with
    | none => simp [createError, List.countP_cons, List.countP_nil]
    | some p =>
      by_cases hc : p ≠ "" ∧ patternTest p s = false
      · simp [hc, createError, List.countP_cons, List.countP_append, List.countP_nil]
      · simp [hc, createError, List.countP_cons, List.countP_nil]
  | some xl =>
    cases hp : schema.pattern with
    | none =>
      by_cases hc : xl < s.length
      · simp [hc, createError, List.countP_cons, List.countP_append, List.countP_nil]
      · simp [hc, createError, List.countP_cons, List.countP_nil]
    | some p =>
      by_cases hc : xl < s.length <;> by_cases hc2 : p ≠ "" ∧ patternTest p s = false <;>
        simp [hc, hc2, createError, List.countP_cons, List.countP_append, List.countP_nil]

/-- C10 amended: on a schema node with `type: "string"` and positive
`minLength` that has no `enum` and no `oneOf`, every string value that trims to
the empty string — including non-empty whitespace such as a single space whose
length already satisfies `minLength` — yields exactly one `EMPTY_STRING` error
at the node's path and no `MIN_LENGTH_VIOLATION`: the empty-string diagnosis is
decided by trimming, not by comparing the length to `minLength`, but it is
reachable only when the enum gate (which preempts all string constraints) is
absent or passed. -/
theorem validateField_empty_string_trumps_min_length (opts : ValidationOptions)
    (path s : String) (schema : JSONSchema) (ml : Nat)
    (h1 : schema.oneOf = none) (h2 : schema.enum = none)
    (h3 : schema.type = some "string") (h4 : schema.minLength = some ml)
    (h5 : 0 < ml) (h6 : jsTrim s = "") :
    (validateField opts path (.str s) schema).errors.countP
        (fun e => e.path == path && e.code == ValidationErrorCode.EMPTY_STRING) = 1 ∧
    (validateField opts path (.str s) schema).errors.countP
        (fun e => e.code == ValidationErrorCode.MIN_LENGTH_VIOLATION) = 0 := by
  rw [validateField_string_schema_errors opts path s schema h1 h2 h3]
  exact stringConstraintErrors_whitespace_counts schema path s ml h3 h4 h5 h6

/-- Closed instance of the amended C10 theorem at the whitespace string
`" "` against a plain string schema with `minLength` 1. -/
theorem validateField_empty_string_trumps_min_length_witness :
    jsTrim " " = "" ∧
    ((validateField defaultOptions "p" (.str " ")
        (.mk (some "string") none none none none none none (some 1) none none
          none none)).errors.countP
        (fun e => e.path == "p" && e.code == ValidationErrorCode.EMPTY_STRING) = 1 ∧
    (validateField defaultOptions "p" (.str " ")
        (.mk (some "string") none none none none none none (some 1) none none
          none none)).errors.countP
        (fun e => e.code == ValidationErrorCode.MIN_LENGTH_VIOLATION) = 0) :=
  ⟨by decide,
   validateField_empty_string_trumps_min_length defaultOptions "p" " "
     (.mk (some "string") none none none none none none (some 1) none none none none) 1
     rfl rfl rfl rfl (by decide) (by decide)⟩

/-- C6 counterexample: on the document `{"message":"x","location":"foo"}` the
first basic-level fix pass ends with an empty `remainingErrors` list (the
`location` type mismatch is repaired to `{}`), yet a second pass on its output
applies a further fix, at path `location.path`: the repaired empty location
object is missing its required `path` property, which the first pass could not
see because the validation result it worked from predates the repair. -/
theorem fix_second_pass_after_clean_first_pass :
    (((fix .basic (.obj [("message", .str "x"), ("location", .str "foo")])
        (validate defaultOptions
          (some (.obj [("message", .str "x"), ("location", .str "foo")])))).map
        (fun r => r.remainingErrors.isEmpty)).getD false = true) ∧
    ((fix .basic
        (((fix .basic (.obj [("message", .str "x"), ("location", .str "foo")])
          (validate defaultOptions
            (some (.obj [("message", .str "x"), ("location", .str "foo")])))).map
          (fun r => r.data)).getD .null)
        (validate defaultOptions
          (some (((fix .basic (.obj [("message", .str "x"), ("location", .str "foo")])
            (validate defaultOptions
              (some (.obj [("message", .str "x"), ("location", .str "foo")])))).map
            (fun r => r.data)).getD .null)))).map
      (fun r => r.appliedFixes.map (fun f => f.path))).getD [] = ["location.path"] := by
  exact ⟨by decide, by decide⟩

/-- C6 amended: the fixer is idempotent on output whose fresh revalidation is
clean.  If validating the first pass's output yields no errors, a second fix
pass on that output returns normally (no thrown `TypeError`), applies zero
fixes, leaves the document unchanged apart from re-cloning, and reports no
remaining errors.  An empty `remainingErrors` list on the first pass alone
does not suffice: it only means every error of the stale first validation was
repaired, and a repair can expose a new error (see the counterexample), so
the premise must be the clean revalidation. -/
theorem fix_idempotent_on_clean_revalidation (lvl : FixLevel) (data : JSONValue)
    (h : (validate defaultOptions
        (some (((fix lvl data (validate defaultOptions (some data))).map
          (fun r => r.data)).getD .null))).errors = []) :
    fix lvl (((fix lvl data (validate defaultOptions (some data))).map
        (fun r => r.data)).getD .null)
      (validate defaultOptions
        (some (((fix lvl data (validate defaultOptions (some data))).map
          (fun r => r.data)).getD .null))) =
      some ⟨false, ((fix lvl data (validate defaultOptions (some data))).map
        (fun r => r.data)).getD .null, [], []⟩ := by
  generalize ((fix lvl data (validate defaultOptions (some data))).map
    (fun r => r.data)).getD .null = d1 at h ⊢
  simp [fix, h, fixLoop, deepClone_id]

/-- Closed instance of the amended C6 theorem on a document whose first fix
pass output revalidates cleanly. -/
theorem fix_idempotent_on_clean_revalidation_witness :
    (validate defaultOptions
        (some (((fix .basic (.obj [("message", .str "x"), ("location", .obj [("path", .str "a")])])
          (validate defaultOptions
            (some (.obj [("message", .str "x"), ("location", .obj [("path", .str "a")])])))).map
          (fun r => r.data)).getD .null))).errors = [] ∧
    fix .basic
        (((fix .basic (.obj [("message", .str "x"), ("location", .obj [("path", .str "a")])])
          (validate defaultOptions
            (some (.obj [("message", .str "x"), ("location", .obj [("path", .str "a")])])))).map
          (fun r => r.data)).getD .null)
        (validate defaultOptions
          (some (((fix .basic (.obj [("message", .str "x"), ("location", .obj [("path", .str "a")])])
            (validate defaultOptions
              (some (.obj [("message", .str "x"), ("location", .obj [("path", .str "a")])])))).map
            (fun r => r.data)).getD .null))) =
      some ⟨false, ((fix .basic (.obj [("message", .str "x"), ("location", .obj [("path", .str "a")])])
        (validate defaultOptions
          (some (.obj [("message", .str "x"), ("location", .obj [("path", .str "a")])])))).map
        (fun r => r.data)).getD .null, [], []⟩ :=
  ⟨rfl,
   fix_idempotent_on_clean_revalidation .basic
     (.obj [("message", .str "x"), ("location", .obj [("path", .str "a")])]) rfl⟩

/-- The severity normalization always lands in the severity enum. -/
theorem normalizeSeverity_mem (cur : Option JSONValue) :
    normalizeSeverity cur ∈ severityEnum := by
  cases cur with
  | none => decide
  | some v =>
    cases v with
    | null => decide
    | bool b => exact show "UNKNOWN_SEVERITY" ∈ severityEnum by decide
    | num q => exact show "UNKNOWN_SEVERITY" ∈ severityEnum by decide
    | arr xs => exact show "UNKNOWN_SEVERITY" ∈ severityEnum by decide
    | obj fs => exact show "UNKNOWN_SEVERITY" ∈ severityEnum by decide
    | str s =>
      show (if jsToLower s = "error" ∨ jsToLower s = "err" ∨ jsToLower s = "fatal" then "ERROR"
        else if jsToLower s = "warning" ∨ jsToLower s = "warn" ∨ jsToLower s = "caution" then
          "WARNING"
        else if jsToLower s = "info" ∨ jsToLower s = "information" ∨ jsToLower s = "note" then
          "INFO"
        else "UNKNOWN_SEVERITY") ∈ severityEnum
      split
      · decide
      · split
        · decide
        · split
          · decide
          · decide

/-- C4: the fixer never mutates its input.  In this pure embedding mutation is
modelled by which document the repair loop threads: `fix` hands the loop
`deepClone data`, never `data`, and `deepClone` rebuilds every node, so its
output is structurally equal to — deep-equal to — its input while sharing no
constructor application with it in the source's heap.  The theorem records the
two checkable facts: the clone is deep-equal to the original, and `fix`
computes the same result from the clone as from the original (all repairs are
applied to the copy). -/
theorem fix_never_mutates_input :
    (∀ v : JSONValue, deepClone v = v) ∧
    (∀ (lvl : FixLevel) (data : JSONValue) (vr : ValidationResult),
      fix lvl data vr = fix lvl (deepClone data) vr) := by
  refine ⟨deepClone_id, fun lvl data vr => ?_⟩
  rw [deepClone_id]

/-- Resolution of an evaluated `oneOf` candidate list against a running best
candidate, when every candidate has at least one error: the result is either
the running best (with every candidate scoring no higher) or some candidate
that strictly beats the running best and is maximal. -/
theorem resolveOneOf_some_best (value : JSONValue) :
    ∀ (rs : List (JSONSchema × (List ValidationError × List ValidationWarning)))
      (b : Int) (be : List ValidationError) (bw : List ValidationWarning),
      (∀ p ∈ rs, p.2.1.isEmpty = false) →
      (resolveOneOf value rs (some (b, be, bw)) = (be, bw) ∧
        ∀ q ∈ rs, calculateSchemaMatchScore value q.1 q.2.1 ≤ b) ∨
      (∃ p ∈ rs, resolveOneOf value rs (some (b, be, bw)) = (p.2.1, p.2.2) ∧
        b < calculateSchemaMatchScore value p.1 p.2.1 ∧
        ∀ q ∈ rs, calculateSchemaMatchScore value q.1 q.2.1 ≤
          calculateSchemaMatchScore value p.1 p.2.1) := by
  intro rs
  induction rs with
  | nil =>
    intro b be bw _
    exact Or.inl ⟨rfl, fun q hq => absurd hq (List.not_mem_nil q)⟩
  | cons hd rest ih =>
    intro b be bw hall
    obtain ⟨s, se, sw⟩ := hd
    have hhd : se.isEmpty = false := hall (s, se, sw) (List.mem_cons_self _ _)
    simp only [resolveOneOf, hhd, Bool.false_eq_true, if_false]
    split
    case isTrue hgt =>
      rcases ih (calculateSchemaMatchScore value s se) se sw
          (fun p hp => hall p (List.mem_cons_of_mem _ hp)) with
        ⟨heq, hbound⟩ | ⟨p, hp, heq, hlt, hbound⟩
      · right
        refine ⟨(s, se, sw), List.mem_cons_self _ _, heq, hgt, ?_⟩
        intro q hq
        rcases List.mem_cons.mp hq with rfl | hq
        · exact le_refl _
        · exact hbound q hq
      · right
        refine ⟨p, List.mem_cons_of_mem _ hp, heq, lt_trans hgt hlt, ?_⟩
        intro q hq
        rcases List.mem_cons.mp hq with rfl | hq
        · exact le_of_lt hlt
        · exact hbound q hq
    case isFalse hgt =>
      rcases ih b be bw (fun p hp => hall p (List.mem_cons_of_mem _ hp)) with
        ⟨heq, hbound⟩ | ⟨p, hp, heq, hlt, hbound⟩
      · left
        refine ⟨heq, ?_⟩
        intro q hq
        rcases List.mem_cons.mp hq with rfl | hq
        · exact not_lt.mp hgt
        · exact hbound q hq
      · right
        refine ⟨p, List.mem_cons_of_mem _ hp, heq, hlt, ?_⟩
        intro q hq
        rcases List.mem_cons.mp hq with rfl | hq
        · exact le_trans (not_lt.mp hgt) (le_of_lt hlt)
        · exact hbound q hq

/-- Resolution of a nonempty evaluated `oneOf` candidate list with no prior
best, when every candidate has at least one error: the surfaced errors and
warnings are those of one single candidate, and that candidate's match score
is maximal among all candidates. -/
theorem resolveOneOf_none_allfail (value : JSONValue)
    (rs : List (JSONSchema × (List ValidationError × List ValidationWarning)))
    (hne : rs ≠ []) (hall : ∀ p ∈ rs, p.2.1.isEmpty = false) :
    ∃ p ∈ rs, resolveOneOf value rs none = (p.2.1, p.2.2) ∧
      ∀ q ∈ rs, calculateSchemaMatchScore value q.1 q.2.1 ≤
        calculateSchemaMatchScore value p.1 p.2.1 := by
  cases rs with
  | nil => exact absurd rfl hne
  | cons hd rest =>
    obtain ⟨s, se, sw⟩ := hd
    have hhd : se.isEmpty = false := hall (s, se, sw) (List.mem_cons_self _ _)
    simp only [resolveOneOf, hhd, Bool.false_eq_true, if_false]
    rcases resolveOneOf_some_best value rest (calculateSchemaMatchScore value s se) se sw
        (fun p hp => hall p (List.mem_cons_of_mem _ hp)) with
      ⟨heq, hbound⟩ | ⟨p, hp, heq, hlt, hbound⟩
    · refine ⟨(s, se, sw), List.mem_cons_self _ _, heq, ?_⟩
      intro q hq
      rcases List.mem_cons.mp hq with rfl | hq
      · exact le_refl _
      · exact hbound q hq
    · refine ⟨p, List.mem_cons_of_mem _ hp, heq, ?_⟩
      intro q hq
      rcases List.mem_cons.mp hq with rfl | hq
      · exact le_of_lt hlt
      · exact hbound q hq

/-- C1: on a schema node with a nonempty `oneOf`, when every alternative's
validation yields at least one error, the oneOf step surfaces exactly the
error list (and warning list) of one single alternative, whose match score is
maximal among all alternatives; in particular the surfaced errors are never a
concatenation of two or more alternatives' lists and the step adds no
`ONEOF_VALIDATION_FAILED` error beyond those already inside the chosen
alternative's own list. -/
theorem oneof_surfaces_single_best_alternative (fuel : Nat) (opts : ValidationOptions)
    (value : JSONValue) (schema : JSONSchema) (path : String) (alts : List JSONSchema)
    (hoo : schema.oneOf = some alts) (hne : alts ≠ [])
    (hall : ∀ s ∈ alts, (validateValueF fuel opts value s path).1.isEmpty = false) :
    ∃ s ∈ alts,
      (validateValueF (fuel + 1) opts value schema path).1 =
        (validateValueF fuel opts value s path).1 ∧
      (validateValueF (fuel + 1) opts value schema path).2 =
        (validateValueF fuel opts value s path).2 ∧
      (∀ t ∈ alts,
        calculateSchemaMatchScore value t (validateValueF fuel opts value t path).1 ≤
          calculateSchemaMatchScore value s (validateValueF fuel opts value s path).1) ∧
      (validateValueF (fuel + 1) opts value schema path).1.countP
          (fun e => e.code == ValidationErrorCode.ONEOF_VALIDATION_FAILED) =
        (validateValueF fuel opts value s path).1.countP
          (fun e => e.code == ValidationErrorCode.ONEOF_VALIDATION_FAILED) := by
  have hv : validateValueF (fuel + 1) opts value schema path =
      resolveOneOf value ((sortSchemasByLikelihood value alts).map
        (fun t => (t, validateValueF fuel opts value t path))) none := by
    simp only [validateValueF, hoo]
  have hne2 : (sortSchemasByLikelihood value alts).map
      (fun t => (t, validateValueF fuel opts value t path)) ≠ [] := by
    intro hc
    have hsn := List.map_eq_nil_iff.mp hc
    have hperm := sortSchemasByLikelihood_perm value alts
    rw [hsn] at hperm
    exact hne hperm.symm.eq_nil
  have hall2 : ∀ p ∈ (sortSchemasByLikelihood value alts).map
      (fun t => (t, validateValueF fuel opts value t path)), p.2.1.isEmpty = false := by
    intro p hp
    obtain ⟨t, ht, rfl⟩ := List.mem_map.mp hp
    exact hall t ((mem_sortSchemasByLikelihood value alts t).mp ht)
  obtain ⟨p, hp, heq, hbound⟩ := resolveOneOf_none_allfail value _ hne2 hall2
  obtain ⟨s, hs, rfl⟩ := List.mem_map.mp hp
  refine ⟨s, (mem_sortSchemasByLikelihood value alts s).mp hs, ?_, ?_, ?_, ?_⟩
  · rw [hv, heq]
  · rw [hv, heq]
  · intro t ht
    exact hbound (t, validateValueF fuel opts value t path)
      (List.mem_map.mpr ⟨t, (mem_sortSchemasByLikelihood value alts t).mpr ht, rfl⟩)
  · rw [hv, heq]

/-- Closed instance of the C1 theorem: the number `1` matches none of the
three top-level RDFormat alternatives, and the surfaced errors come from one
single best-scoring alternative. -/
theorem oneof_surfaces_single_best_alternative_witness :
    rdformatSchema.oneOf = some (rdformatSchema.oneOf.getD []) ∧
    (∀ s ∈ rdformatSchema.oneOf.getD [],
      (validateValueF 4 defaultOptions (.num 1) s "").1.isEmpty = false) ∧
    ∃ s ∈ rdformatSchema.oneOf.getD [],
      (validateValueF (4 + 1) defaultOptions (.num 1) rdformatSchema "").1 =
        (validateValueF 4 defaultOptions (.num 1) s "").1 ∧
      (validateValueF (4 + 1) defaultOptions (.num 1) rdformatSchema "").2 =
        (validateValueF 4 defaultOptions (.num 1) s "").2 ∧
      (∀ t ∈ rdformatSchema.oneOf.getD [],
        calculateSchemaMatchScore (.num 1) t (validateValueF 4 defaultOptions (.num 1) t "").1 ≤
          calculateSchemaMatchScore (.num 1) s
            (validateValueF 4 defaultOptions (.num 1) s "").1) ∧
      (validateValueF (4 + 1) defaultOptions (.num 1) rdformatSchema "").1.countP
          (fun e => e.code == ValidationErrorCode.ONEOF_VALIDATION_FAILED) =
        (validateValueF 4 defaultOptions (.num 1) s "").1.countP
          (fun e => e.code == ValidationErrorCode.ONEOF_VALIDATION_FAILED) :=
  ⟨rfl, by decide,
   oneof_surfaces_single_best_alternative 4 defaultOptions (.num 1) rdformatSchema ""
     (rdformatSchema.oneOf.getD []) rfl (List.cons_ne_nil _ _) (by decide)⟩

/-! Path algebra: how `parsePath` interacts with `joinPath` and with the
numeric segments interpolated by the validator. -/

/-- Splitting distributes over a separator character. -/
theorem splitSegs_sep (c : Char) (hc : isSepChar c = true) :
    ∀ (cs : List Char) (acc : List Char) (ds : List Char),
      splitSegs acc (cs ++ c :: ds) = splitSegs acc cs ++ splitSegs [] ds := by
  intro cs
  induction cs with
  | nil =>
    intro acc ds
    simp only [List.nil_append, splitSegs, hc, if_true]
  | cons x xs ih =>
    intro acc ds
    simp only [List.cons_append, splitSegs]
    by_cases hx : isSepChar x = true
    · simp only [hx, if_true, List.append_eq]
      rw [ih]
      exact (List.append_assoc _ _ _).symm
    · simp only [eq_false_of_ne_true hx, Bool.false_eq_true, if_false]
      exact ih (acc ++ [x]) ds

/-- Splitting a separator-free character list yields the list itself as a
single segment (or nothing when everything is empty). -/
theorem splitSegs_plain :
    ∀ (cs : List Char) (acc : List Char),
      cs.all (fun c => !isSepChar c) = true →
      splitSegs acc cs =
        if (acc ++ cs).isEmpty then [] else [(⟨acc ++ cs⟩ : String)] := by
  intro cs
  induction cs with
  | nil => intro acc _; simp [splitSegs]
  | cons x xs ih =>
    intro acc hall
    simp only [List.all_cons, Bool.and_eq_true, Bool.not_eq_true'] at hall
    simp only [splitSegs, hall.1, Bool.false_eq_true, if_false, ih (acc ++ [x]) (by
      simpa using hall.2), List.append_assoc, List.singleton_append]

/-- The fixer's path parse inverts the validator's path join segmentwise. -/
theorem parsePath_join (p seg : String) :
    parsePath (joinPath p seg) = parsePath p ++ parsePath seg := by
  unfold joinPath
  by_cases hp : p = ""
  · subst hp
    simp [parsePath, splitSegs]
  · simp only [hp, if_false]
    by_cases hn : isNumericStr seg = true
    · simp only [hn, if_true]
      have hd : (p ++ "[" ++ seg ++ "]").data = p.data ++ '[' :: (seg.data ++ ']' :: []) := by
        simp [String.data_append]
      unfold parsePath
      rw [hd, splitSegs_sep '[' (by decide), splitSegs_sep ']' (by decide)]
      simp [splitSegs]
    · simp only [eq_false_of_ne_true hn, Bool.false_eq_true, if_false]
      have hd : (p ++ "." ++ seg).data = p.data ++ '.' :: seg.data := by
        simp [String.data_append]
      unfold parsePath
      rw [hd, splitSegs_sep '.' (by decide)]

/-- A nonempty separator-free string parses to itself as a single segment. -/
theorem parsePath_plain (s : String) (h : segPlain s = true) : parsePath s = [s] := by
  unfold segPlain at h
  simp only [Bool.and_eq_true, decide_eq_true_eq] at h
  unfold parsePath
  rw [splitSegs_plain s.data [] h.2]
  have hne : s.data ≠ [] := by
    intro hc
    exact h.1 (by cases s; simp_all)
  simp [List.isEmpty_iff, hne]

/-- Digit characters are decimal digits. -/
theorem digitChar_isDigit (d : Nat) : (digitChar d).isDigit = true := by
  unfold digitChar
  split <;> decide

/-- Digit characters decode back to their digit. -/
theorem digitChar_toNat (d : Nat) (h : d < 10) : (digitChar d).toNat - 48 = d := by
  interval_cases d <;> decide

/-- Digits are not path separators. -/
theorem isSepChar_eq_false_of_isDigit (c : Char) (h : c.isDigit = true) :
    isSepChar c = false := by
  unfold isSepChar
  by_cases h1 : c = '.'
  · subst h1; exact absurd h (by decide)
  by_cases h2 : c = '['
  · subst h2; exact absurd h (by decide)
  by_cases h3 : c = ']'
  · subst h3; exact absurd h (by decide)
  simp [h1, h2, h3]

/-- All characters produced by `natToChars` are digits. -/
theorem natToChars_all_digit : ∀ (f n : Nat), (natToChars f n).all Char.isDigit = true := by
  intro f
  induction f with
  | zero => intro n; rfl
  | succ f ih =>
    intro n
    cases n with
    | zero => rfl
    | succ m => simp [natToChars, List.all_append, ih, digitChar_isDigit]

/-- Decimal accumulation distributes over list append. -/
theorem charsToNat_append : ∀ (a b : List Char) (acc : Nat),
    charsToNat (a ++ b) acc = charsToNat b (charsToNat a acc) := by
  intro a
  induction a with
  | nil => intro b acc; rfl
  | cons c cs ih =>
    intro b acc
    simp only [List.cons_append, charsToNat]
    exact ih b _

/-- Decimal parse inverts decimal rendering (with enough fuel). -/
theorem charsToNat_natToChars : ∀ (f n : Nat), n ≤ f → ∀ acc : Nat,
    charsToNat (natToChars f n) acc = acc * 10 ^ (natToChars f n).length + n := by
  intro f
  induction f with
  | zero =>
    intro n hn acc
    interval_cases n
    simp [natToChars, charsToNat]
  | succ f ih =>
    intro n hn acc
    cases n with
    | zero => simp [natToChars, charsToNat]
    | succ m =>
      have hd : (m + 1) / 10 ≤ f := by
        have h1 : (m + 1) / 10 < m + 1 := Nat.div_lt_self (Nat.succ_pos m) (by omega)
        omega
      simp only [natToChars, charsToNat_append, ih ((m + 1) / 10) hd acc, charsToNat,
        List.length_append, List.length_cons, List.length_nil]
      rw [digitChar_toNat ((m + 1) % 10) (Nat.mod_lt _ (by omega)), pow_succ, ← mul_assoc]
      generalize acc * 10 ^ (natToChars f ((m + 1) / 10)).length = A
      omega

/-- The decimal rendering of a natural number is all digits. -/
theorem natRepr_data_digits (n : Nat) : (natRepr n).data.all Char.isDigit = true := by
  unfold natRepr
  by_cases h : n = 0
  · subst h; decide
  · rw [if_neg h]
    exact natToChars_all_digit n n

/-- The decimal rendering of a natural number is nonempty. -/
theorem natRepr_ne_empty (n : Nat) : natRepr n ≠ "" := by
  unfold natRepr
  by_cases h : n = 0
  · subst h; decide
  · rw [if_neg h]
    cases n with
    | zero => exact absurd rfl h
    | succ m =>
      intro hc
      have hdata : natToChars (m + 1) (m + 1) = [] := congrArg String.data hc
      simp [natToChars] at hdata

/-- Rendered numbers pass the numeric-string test. -/
theorem isNumericStr_natRepr (n : Nat) : isNumericStr (natRepr n) = true := by
  unfold isNumericStr
  rw [if_neg (natRepr_ne_empty n)]
  exact natRepr_data_digits n

/-- Rendered numbers are plain path segments. -/
theorem segPlain_natRepr (n : Nat) : segPlain (natRepr n) = true := by
  unfold segPlain
  simp only [Bool.and_eq_true, decide_eq_true_eq]
  refine ⟨natRepr_ne_empty n, ?_⟩
  have h := natRepr_data_digits n
  simp only [List.all_eq_true] at h ⊢
  intro c hc
  simp [isSepChar_eq_false_of_isDigit c (h c hc)]

/-- Rendered numbers parse back to themselves. -/
theorem strToNatD_natRepr (n : Nat) : strToNatD (natRepr n) = n := by
  unfold strToNatD natRepr
  by_cases h : n = 0
  · subst h; decide
  · rw [if_neg h]
    simpa using charsToNat_natToChars n n (le_refl n) 0

/-- Rendered numbers are single path segments. -/
theorem parsePath_natRepr (n : Nat) : parsePath (natRepr n) = [natRepr n] :=
  parsePath_plain _ (segPlain_natRepr n)

/-- Array indexing through a rendered numeric segment. -/
theorem jsIndex_arr_natRepr (xs : List JSONValue) (i : Nat) :
    jsIndex (.arr xs) (natRepr i) = xs.get? i := by
  show (if isNumericStr (natRepr i) = true then xs.get? (strToNatD (natRepr i)) else none) =
    xs.get? i
  rw [isNumericStr_natRepr, if_pos rfl, strToNatD_natRepr]

/-- Enumerated members are at their index. -/
theorem get?_of_mem_enum {α : Type} (xs : List α) (p : Nat × α) (hp : p ∈ xs.enum) :
    xs.get? p.1 = some p.2 := by
  have h := List.mem_enum_iff_getElem?.mp hp
  simpa [List.get?_eq_getElem?] using h

/-- Walking from `undefined` stays `undefined`. -/
theorem go_none : ∀ ps : List String, getValueAtPath.go none ps = none
  | [] => rfl
  | _ :: _ => rfl

/-- Path walking decomposes over list append. -/
theorem go_append : ∀ (a b : List String) (cur : Option JSONValue),
    getValueAtPath.go cur (a ++ b) = getValueAtPath.go (getValueAtPath.go cur a) b := by
  intro a
  induction a with
  | nil =>
    intro b cur
    rcases cur with _ | v
    · rfl
    · cases v <;> rfl
  | cons p ps ih =>
    intro b cur
    rcases cur with _ | v
    · exact (go_none b).symm
    · cases v with
      | null => exact (go_none b).symm
      | bool x => exact ih b (jsIndex (.bool x) p)
      | num q => exact ih b (jsIndex (.num q) p)
      | str s => exact ih b (jsIndex (.str s) p)
      | arr xs => exact ih b (jsIndex (.arr xs) p)
      | obj fs => exact ih b (jsIndex (.obj fs) p)

/-- Reading one segment deeper decomposes through the shallower read. -/
theorem getValueAtPath_append (d : JSONValue) (a b : List String) :
    getValueAtPath d (a ++ b) = getValueAtPath.go (getValueAtPath d a) b := by
  unfold getValueAtPath
  exact go_append a b (some d)

/-- The splice idiom only removes errors. -/
theorem mem_of_mem_spliceOut (l : List ValidationError) (p : String)
    (c : ValidationErrorCode) (e : ValidationError) (h : e ∈ spliceOut l p c) : e ∈ l := by
  unfold spliceOut at h
  cases hf : l.findIdx? (fun e => e.path == p && e.code == c) with
  | none => rw [hf] at h; exact h
  | some i => rw [hf] at h; exact (List.eraseIdx_sublist l i).subset h

/-- Every error surfaced by the oneOf resolution comes from one candidate's
error list (or from the running best). -/
theorem resolveOneOf_mem_subset (value : JSONValue) :
    ∀ (rs : List (JSONSchema × (List ValidationError × List ValidationWarning)))
      (best : Option (Int × List ValidationError × List ValidationWarning))
      (e : ValidationError),
      e ∈ (resolveOneOf value rs best).1 →
      (∃ p ∈ rs, e ∈ p.2.1) ∨ (∃ b, best = some b ∧ e ∈ b.2.1) := by
  intro rs
  induction rs with
  | nil =>
    intro best e he
    cases best with
    | none => exact absurd he (List.not_mem_nil e)
    | some b => exact Or.inr ⟨b, rfl, he⟩
  | cons hd rest ih =>
    intro best e he
    obtain ⟨s, se, sw⟩ := hd
    by_cases hse : se.isEmpty = true
    · rw [show resolveOneOf value ((s, (se, sw)) :: rest) best = ([], sw) from by
        simp [resolveOneOf, hse]] at he
      exact absurd he (List.not_mem_nil e)
    · have hse' : se.isEmpty = false := eq_false_of_ne_true hse
      cases best with
      | none =>
        rw [show resolveOneOf value ((s, (se, sw)) :: rest) none =
            resolveOneOf value rest (some (calculateSchemaMatchScore value s se, se, sw)) from by
          simp [resolveOneOf, hse']] at he
        rcases ih _ e he with ⟨p, hp, hep⟩ | ⟨b, hb, heb⟩
        · exact Or.inl ⟨p, List.mem_cons_of_mem _ hp, hep⟩
        · obtain rfl := Option.some.inj hb
          exact Or.inl ⟨(s, (se, sw)), List.mem_cons_self _ _, heb⟩
      | some b0 =>
        obtain ⟨b, be, bw⟩ := b0
        by_cases hgt : calculateSchemaMatchScore value s se > b
        · rw [show resolveOneOf value ((s, (se, sw)) :: rest) (some (b, (be, bw))) =
              resolveOneOf value rest (some (calculateSchemaMatchScore value s se, se, sw)) from by
            simp [resolveOneOf, hse', hgt]] at he
          rcases ih _ e he with ⟨p, hp, hep⟩ | ⟨b1, hb1, heb1⟩
          · exact Or.inl ⟨p, List.mem_cons_of_mem _ hp, hep⟩
          · obtain rfl := Option.some.inj hb1
            exact Or.inl ⟨(s, (se, sw)), List.mem_cons_self _ _, heb1⟩
        · rw [show resolveOneOf value ((s, (se, sw)) :: rest) (some (b, (be, bw))) =
              resolveOneOf value rest (some (b, be, bw)) from by
            simp [resolveOneOf, hse', hgt]] at he
          rcases ih _ e he with ⟨p, hp, hep⟩ | ⟨b1, hb1, heb1⟩
          · exact Or.inl ⟨p, List.mem_cons_of_mem _ hp, hep⟩
          · obtain rfl := Option.some.inj hb1
            exact Or.inr ⟨(b, (be, bw)), rfl, heb1⟩

/-- An error whose code is none of the five fixer-sensitive codes satisfies
the invariant trivially. -/
theorem errOK_of_codes (d : JSONValue) (e : ValidationError)
    (h1 : e.code ≠ ValidationErrorCode.TYPE_MISMATCH)
    (h2 : e.code ≠ ValidationErrorCode.MISSING_DIAGNOSTIC_MESSAGE)
    (h3 : e.code ≠ ValidationErrorCode.MISSING_DIAGNOSTIC_LOCATION)
    (h4 : e.code ≠ ValidationErrorCode.INVALID_POSITION)
    (h5 : e.code ≠ ValidationErrorCode.INVALID_SEVERITY) : ErrOK d e :=
  ⟨fun h => absurd h h1, fun h => absurd h h2, fun h => absurd h h3, fun h => absurd h h4,
    fun h => absurd h h5⟩

/-- Freshly created errors with codes outside the fixer-sensitive five satisfy
the invariant. -/
theorem errOK_createError (d : JSONValue) (p : String) (c : ValidationErrorCode)
    (v : Option JSONValue) (ex cs sg : Option String)
    (h1 : c ≠ ValidationErrorCode.TYPE_MISMATCH)
    (h2 : c ≠ ValidationErrorCode.MISSING_DIAGNOSTIC_MESSAGE)
    (h3 : c ≠ ValidationErrorCode.MISSING_DIAGNOSTIC_LOCATION)
    (h4 : c ≠ ValidationErrorCode.INVALID_POSITION)
    (h5 : c ≠ ValidationErrorCode.INVALID_SEVERITY) :
    ErrOK d (createError p c v ex cs sg) :=
  errOK_of_codes d _ h1 h2 h3 h4 h5

/-- String constraint errors satisfy the invariant (their codes are not
fixer-sensitive). -/
theorem stringConstraintErrors_errOK (schema : JSONSchema) (value : JSONValue)
    (path : String) (d : JSONValue) (e : ValidationError)
    (h : e ∈ stringConstraintErrors schema value path) : ErrOK d e := by
  rcases value with _ | b | q | s | xs | fs <;>
    simp only [stringConstraintErrors] at h
  all_goals try exact absurd h (List.not_mem_nil e)
  split at h
  case isFalse => exact absurd h (List.not_mem_nil e)
  case isTrue =>
    rcases List.mem_append.mp h with h1 | h1
    · rcases List.mem_append.mp h1 with h2 | h2
      · split at h2
        · split at h2
          · rw [List.mem_singleton] at h2
            subst h2
            exact errOK_createError d _ _ _ _ _ _
              (by decide) (by decide) (by decide) (by decide) (by decide)
          · split at h2
            · rw [List.mem_singleton] at h2
              subst h2
              exact errOK_createError d _ _ _ _ _ _
                (by decide) (by decide) (by decide) (by decide) (by decide)
            · exact absurd h2 (List.not_mem_nil e)
        · exact absurd h2 (List.not_mem_nil e)
      · split at h2
        · split at h2
          · rw [List.mem_singleton] at h2
            subst h2
            exact errOK_createError d _ _ _ _ _ _
              (by decide) (by decide) (by decide) (by decide) (by decide)
          · exact absurd h2 (List.not_mem_nil e)
        · exact absurd h2 (List.not_mem_nil e)
    · split at h1
      · split at h1
        · rw [List.mem_singleton] at h1
          subst h1
          exact errOK_createError d _ _ _ _ _ _
            (by decide) (by decide) (by decide) (by decide) (by decide)
        · exact absurd h1 (List.not_mem_nil e)
      · exact absurd h1 (List.not_mem_nil e)

/-- Number constraint errors satisfy the invariant. -/
theorem numberConstraintErrors_errOK (schema : JSONSchema) (value : JSONValue)
    (path : String) (d : JSONValue) (e : ValidationError)
    (h : e ∈ numberConstraintErrors schema value path) : ErrOK d e := by
  rcases value with _ | b | q | s | xs | fs <;>
    simp only [numberConstraintErrors] at h
  all_goals try exact absurd h (List.not_mem_nil e)
  split at h
  case isFalse => exact absurd h (List.not_mem_nil e)
  case isTrue =>
    rcases List.mem_append.mp h with h1 | h1 <;>
      (split at h1
       · split at h1
         · rw [List.mem_singleton] at h1
           subst h1
           exact errOK_createError d _ _ _ _ _ _
             (by decide) (by decide) (by decide) (by decide) (by decide)
         · exact absurd h1 (List.not_mem_nil e)
       · exact absurd h1 (List.not_mem_nil e))

/-- Missing-required-property errors satisfy the invariant. -/
theorem requiredErrors_errOK (value : JSONValue) (schema : JSONSchema)
    (path : String) (d : JSONValue) (e : ValidationError)
    (h : e ∈ requiredErrors value schema path) : ErrOK d e := by
  unfold requiredErrors at h
  split at h
  · obtain ⟨rp, _, rfl⟩ := List.mem_map.mp h
    exact errOK_createError d _ _ _ _ _ _
      (by decide) (by decide) (by decide) (by decide) (by decide)
  · exact absurd h (List.not_mem_nil e)

/-- Unknown-property errors satisfy the invariant. -/
theorem extraPropResults_errOK (opts : ValidationOptions) (value : JSONValue)
    (schema : JSONSchema) (path : String) (d : JSONValue) (e : ValidationError)
    (h : e ∈ (extraPropResults opts value schema path).1) : ErrOK d e := by
  unfold extraPropResults at h
  split at h
  · split at h
    · split at h
      · obtain ⟨k, _, rfl⟩ := List.mem_map.mp h
        exact errOK_createError d _ _ _ _ _ _
          (by decide) (by decide) (by decide) (by decide) (by decide)
      · exact absurd h (List.not_mem_nil e)
    · exact absurd h (List.not_mem_nil e)
  · exact absurd h (List.not_mem_nil e)

/-- Members of a checked alternative list are checked. -/
theorem schemaSlistOk_mem : ∀ (l : List JSONSchema), schemaSlistOk l = true →
    ∀ s ∈ l, schemaSegsOk s = true := by
  intro l
  induction l with
  | nil => intro _ s hs; exact absurd hs (List.not_mem_nil s)
  | cons t rest ih =>
    intro hl s hs
    simp only [schemaSlistOk, Bool.and_eq_true] at hl
    rcases List.mem_cons.mp hs with rfl | hs
    · exact hl.1
    · exact ih hl.2 s hs

/-- Members of a checked property list are plain-named and checked. -/
theorem schemaPlistOk_mem : ∀ (l : List (String × JSONSchema)), schemaPlistOk l = true →
    ∀ p ∈ l, segPlain p.1 = true ∧ schemaSegsOk p.2 = true := by
  intro l
  induction l with
  | nil => intro _ p hp; exact absurd hp (List.not_mem_nil p)
  | cons t rest ih =>
    intro hl p hp
    obtain ⟨n, s⟩ := t
    simp only [schemaPlistOk, Bool.and_eq_true] at hl
    rcases List.mem_cons.mp hp with rfl | hp
    · exact ⟨hl.1.1, hl.1.2⟩
    · exact ih hl.2 p hp

/-- A checked schema has checked `oneOf` alternatives. -/
theorem schemaSegsOk_oneOf (schema : JSONSchema) (alts : List JSONSchema)
    (hok : schemaSegsOk schema = true) (hoo : schema.oneOf = some alts) :
    schemaSlistOk alts = true := by
  cases schema with
  | mk t r p i e mn mx ml xl pa ap oo =>
    simp only [JSONSchema.oneOf] at hoo
    subst hoo
    simp only [schemaSegsOk, Bool.and_eq_true] at hok
    exact hok.2

/-- A checked schema has a checked property list. -/
theorem schemaSegsOk_properties (schema : JSONSchema) (props : List (String × JSONSchema))
    (hok : schemaSegsOk schema = true) (hp : schema.properties = some props) :
    schemaPlistOk props = true := by
  cases schema with
  | mk t r p i e mn mx ml xl pa ap oo =>
    simp only [JSONSchema.properties] at hp
    subst hp
    simp only [schemaSegsOk, Bool.and_eq_true] at hok
    exact hok.1.1

/-- A checked schema has a checked items schema. -/
theorem schemaSegsOk_items (schema : JSONSchema) (it : JSONSchema)
    (hok : schemaSegsOk schema = true) (hi : schema.items = some it) :
    schemaSegsOk it = true := by
  cases schema with
  | mk t r p i e mn mx ml xl pa ap oo =>
    simp only [JSONSchema.items] at hi
    subst hi
    simp only [schemaSegsOk, Bool.and_eq_true] at hok
    exact hok.1.2

/-- Walking an empty path is the identity. -/
theorem go_nil : ∀ cur : Option JSONValue, getValueAtPath.go cur [] = cur := by
  intro cur
  rcases cur with _ | v
  · rfl
  · cases v <;> rfl

/-- One walking step through a non-null value is a member access. -/
theorem go_cons_some : ∀ (v : JSONValue) (p : String) (ps : List String), v ≠ .null →
    getValueAtPath.go (some v) (p :: ps) = getValueAtPath.go (jsIndex v p) ps := by
  intro v p ps hv
  cases v with
  | null => exact absurd rfl hv
  | bool b => rfl
  | num q => rfl
  | str s => rfl
  | arr xs => rfl
  | obj fs => rfl

/-- Extending a path by one plain segment reads one member deeper. -/
theorem getValueAtPath_child (d : JSONValue) (path : String) (v : JSONValue) (name : String)
    (hroot : getValueAtPath d (parsePath path) = some v)
    (hv : v ≠ .null) (hseg : segPlain name = true) :
    getValueAtPath d (parsePath (joinPath path name)) = jsIndex v name := by
  rw [parsePath_join, parsePath_plain name hseg, getValueAtPath_append, hroot,
    go_cons_some v name [] hv, go_nil]

/-- Object member values live at the joined property path. -/
theorem getValueAtPath_obj_child (d : JSONValue) (path : String)
    (fields : List (String × JSONValue)) (name : String) (pv : JSONValue)
    (hroot : getValueAtPath d (parsePath path) = some (.obj fields))
    (hseg : segPlain name = true) (hfg : fieldsGet fields name = some pv) :
    getValueAtPath d (parsePath (joinPath path name)) = some pv := by
  rw [getValueAtPath_child d path (.obj fields) name hroot (by intro hc; cases hc) hseg]
  exact hfg

/-- Array elements live at the joined numeric path. -/
theorem getValueAtPath_arr_child (d : JSONValue) (path : String)
    (xs : List JSONValue) (i : Nat) (x : JSONValue)
    (hroot : getValueAtPath d (parsePath path) = some (.arr xs))
    (hget : xs.get? i = some x) :
    getValueAtPath d (parsePath (joinPath path (natRepr i))) = some x := by
  rw [getValueAtPath_child d path (.arr xs) (natRepr i) hroot (by intro hc; cases hc)
    (segPlain_natRepr i), jsIndex_arr_natRepr]
  exact hget

/-- Decomposition of the errors produced by one non-`oneOf` validator step:
every error is the type mismatch at this node, the enum failure at this node,
a string/number/required/extra-property constraint error at this node, or an
error of a recursive call on an object member or array element. -/
theorem validateValueF_none_mem :
    ∀ (fuel : Nat) (opts : ValidationOptions) (value : JSONValue) (schema : JSONSchema)
      (path : String) (e : ValidationError),
      schema.oneOf = none →
      e ∈ (validateValueF (fuel + 1) opts value schema path).1 →
      (e.code = ValidationErrorCode.TYPE_MISMATCH ∧ e.path = path ∧ e.value = some value) ∨
      e.code = ValidationErrorCode.ENUM_VALIDATION_FAILED ∨
      e ∈ stringConstraintErrors schema value path ∨
      e ∈ numberConstraintErrors schema value path ∨
      e ∈ requiredErrors value schema path ∨
      e ∈ (extraPropResults opts value schema path).1 ∨
      (∃ fields props pr pv, value = JSONValue.obj fields ∧ schema.properties = some props ∧
        pr ∈ props ∧ fieldsGet fields pr.1 = some pv ∧
        e ∈ (validateValueF fuel opts pv pr.2 (joinPath path pr.1)).1) ∨
      (∃ xs itemsSchema ia, value = JSONValue.arr xs ∧ schema.items = some itemsSchema ∧
        ia ∈ xs.enum ∧
        e ∈ (validateValueF fuel opts ia.2 itemsSchema (joinPath path (natRepr ia.1))).1) := by
  intro fuel opts value schema path e hoo he
  simp only [validateValueF, hoo] at he
  split at he
  case h_1 =>
    split at he
    · rw [List.mem_singleton] at he
      subst he
      exact Or.inl ⟨rfl, rfl, rfl⟩
    · split at he
      · split at he
        · rw [List.mem_singleton] at he
          subst he
          exact Or.inr (Or.inl rfl)
        · first
        | exact absurd he (List.not_mem_nil e)
        | (simp only [] at he
           rcases List.mem_append.mp he with h1 | harr
           · rcases List.mem_append.mp h1 with h2 | hobj
             · rcases List.mem_append.mp h2 with hs | hn
               · exact Or.inr (Or.inr (Or.inl hs))
               · exact Or.inr (Or.inr (Or.inr (Or.inl hn)))
             · rcases value with _ | b | q | s | xs | fields <;> simp only [] at hobj
               all_goals try exact absurd hobj (List.not_mem_nil e)
               split at hobj
               · simp only [] at hobj
                 rcases List.mem_append.mp hobj with h4 | hextra
                 · rcases List.mem_append.mp h4 with hreq | hflat
                   · exact Or.inr (Or.inr (Or.inr (Or.inr (Or.inl hreq))))
                   · rw [List.map_map] at hflat
                     obtain ⟨l, hl, hel⟩ := List.mem_flatten.mp hflat
                     obtain ⟨pr, hpr, rfl⟩ := List.mem_map.mp hl
                     simp only [Function.comp] at hel
                     split at hel
                     · rename_i pv heq
                       cases hpp : schema.properties with
                       | none => rw [hpp] at hpr; simp at hpr
                       | some plist =>
                         rw [hpp] at hpr
                         simp only [Option.getD] at hpr
                         exact Or.inr (Or.inr (Or.inr (Or.inr (Or.inr (Or.inr (Or.inl
                           ⟨fields, plist, pr, pv, rfl, rfl, hpr, heq, hel⟩))))))
                     · exact absurd hel (List.not_mem_nil e)
                 · exact Or.inr (Or.inr (Or.inr (Or.inr (Or.inr (Or.inl hextra)))))
               · exact absurd hobj (List.not_mem_nil e)
           · rcases value with _ | b | q | s | xs | fields <;> simp only [] at harr
             all_goals try exact absurd harr (List.not_mem_nil e)
             split at harr
             · split at harr
               · rename_i itemsSchema heqItems
                 simp only [] at harr
                 rw [List.map_map] at harr
                 obtain ⟨l, hl, hel⟩ := List.mem_flatten.mp harr
                 obtain ⟨ia, hia, rfl⟩ := List.mem_map.mp hl
                 simp only [Function.comp] at hel
                 exact Or.inr (Or.inr (Or.inr (Or.inr (Or.inr (Or.inr (Or.inr
                   ⟨xs, itemsSchema, ia, rfl, heqItems, hia, hel⟩))))))
               · exact absurd harr (List.not_mem_nil e)
             · exact absurd harr (List.not_mem_nil e))
      · first
        | exact absurd he (List.not_mem_nil e)
        | (simp only [] at he
           rcases List.mem_append.mp he with h1 | harr
           · rcases List.mem_append.mp h1 with h2 | hobj
             · rcases List.mem_append.mp h2 with hs | hn
               · exact Or.inr (Or.inr (Or.inl hs))
               · exact Or.inr (Or.inr (Or.inr (Or.inl hn)))
             · rcases value with _ | b | q | s | xs | fields <;> simp only [] at hobj
               all_goals try exact absurd hobj (List.not_mem_nil e)
               split at hobj
               · simp only [] at hobj
                 rcases List.mem_append.mp hobj with h4 | hextra
                 · rcases List.mem_append.mp h4 with hreq | hflat
                   · exact Or.inr (Or.inr (Or.inr (Or.inr (Or.inl hreq))))
                   · rw [List.map_map] at hflat
                     obtain ⟨l, hl, hel⟩ := List.mem_flatten.mp hflat
                     obtain ⟨pr, hpr, rfl⟩ := List.mem_map.mp hl
                     simp only [Function.comp] at hel
                     split at hel
                     · rename_i pv heq
                       cases hpp : schema.properties with
                       | none => rw [hpp] at hpr; simp at hpr
                       | some plist =>
                         rw [hpp] at hpr
                         simp only [Option.getD] at hpr
                         exact Or.inr (Or.inr (Or.inr (Or.inr (Or.inr (Or.inr (Or.inl
                           ⟨fields, plist, pr, pv, rfl, rfl, hpr, heq, hel⟩))))))
                     · exact absurd hel (List.not_mem_nil e)
                 · exact Or.inr (Or.inr (Or.inr (Or.inr (Or.inr (Or.inl hextra)))))
               · exact absurd hobj (List.not_mem_nil e)
           · rcases value with _ | b | q | s | xs | fields <;> simp only [] at harr
             all_goals try exact absurd harr (List.not_mem_nil e)
             split at harr
             · split at harr
               · rename_i itemsSchema heqItems
                 simp only [] at harr
                 rw [List.map_map] at harr
                 obtain ⟨l, hl, hel⟩ := List.mem_flatten.mp harr
                 obtain ⟨ia, hia, rfl⟩ := List.mem_map.mp hl
                 simp only [Function.comp] at hel
                 exact Or.inr (Or.inr (Or.inr (Or.inr (Or.inr (Or.inr (Or.inr
                   ⟨xs, itemsSchema, ia, rfl, heqItems, hia, hel⟩))))))
               · exact absurd harr (List.not_mem_nil e)
             · exact absurd harr (List.not_mem_nil e))
  case h_2 =>
    split at he
    · split at he
      · rw [List.mem_singleton] at he
        subst he
        exact Or.inr (Or.inl rfl)
      · first
        | exact absurd he (List.not_mem_nil e)
        | (simp only [] at he
           rcases List.mem_append.mp he with h1 | harr
           · rcases List.mem_append.mp h1 with h2 | hobj
             · rcases List.mem_append.mp h2 with hs | hn
               · exact Or.inr (Or.inr (Or.inl hs))
               · exact Or.inr (Or.inr (Or.inr (Or.inl hn)))
             · rcases value with _ | b | q | s | xs | fields <;> simp only [] at hobj
               all_goals try exact absurd hobj (List.not_mem_nil e)
               split at hobj
               · simp only [] at hobj
                 rcases List.mem_append.mp hobj with h4 | hextra
                 · rcases List.mem_append.mp h4 with hreq | hflat
                   · exact Or.inr (Or.inr (Or.inr (Or.inr (Or.inl hreq))))
                   · rw [List.map_map] at hflat
                     obtain ⟨l, hl, hel⟩ := List.mem_flatten.mp hflat
                     obtain ⟨pr, hpr, rfl⟩ := List.mem_map.mp hl
                     simp only [Function.comp] at hel
                     split at hel
                     · rename_i pv heq
                       cases hpp : schema.properties with
                       | none => rw [hpp] at hpr; simp at hpr
                       | some plist =>
                         rw [hpp] at hpr
                         simp only [Option.getD] at hpr
                         exact Or.inr (Or.inr (Or.inr (Or.inr (Or.inr (Or.inr (Or.inl
                           ⟨fields, plist, pr, pv, rfl, rfl, hpr, heq, hel⟩))))))
                     · exact absurd hel (List.not_mem_nil e)
                 · exact Or.inr (Or.inr (Or.inr (Or.inr (Or.inr (Or.inl hextra)))))
               · exact absurd hobj (List.not_mem_nil e)
           · rcases value with _ | b | q | s | xs | fields <;> simp only [] at harr
             all_goals try exact absurd harr (List.not_mem_nil e)
             split at harr
             · split at harr
               · rename_i itemsSchema heqItems
                 simp only [] at harr
                 rw [List.map_map] at harr
                 obtain ⟨l, hl, hel⟩ := List.mem_flatten.mp harr
                 obtain ⟨ia, hia, rfl⟩ := List.mem_map.mp hl
                 simp only [Function.comp] at hel
                 exact Or.inr (Or.inr (Or.inr (Or.inr (Or.inr (Or.inr (Or.inr
                   ⟨xs, itemsSchema, ia, rfl, heqItems, hia, hel⟩))))))
               · exact absurd harr (List.not_mem_nil e)
             · exact absurd harr (List.not_mem_nil e))
    · first
        | exact absurd he (List.not_mem_nil e)
        | (simp only [] at he
           rcases List.mem_append.mp he with h1 | harr
           · rcases List.mem_append.mp h1 with h2 | hobj
             · rcases List.mem_append.mp h2 with hs | hn
               · exact Or.inr (Or.inr (Or.inl hs))
               · exact Or.inr (Or.inr (Or.inr (Or.inl hn)))
             · rcases value with _ | b | q | s | xs | fields <;> simp only [] at hobj
               all_goals try exact absurd hobj (List.not_mem_nil e)
               split at hobj
               · simp only [] at hobj
                 rcases List.mem_append.mp hobj with h4 | hextra
                 · rcases List.mem_append.mp h4 with hreq | hflat
                   · exact Or.inr (Or.inr (Or.inr (Or.inr (Or.inl hreq))))
                   · rw [List.map_map] at hflat
                     obtain ⟨l, hl, hel⟩ := List.mem_flatten.mp hflat
                     obtain ⟨pr, hpr, rfl⟩ := List.mem_map.mp hl
                     simp only [Function.comp] at hel
                     split at hel
                     · rename_i pv heq
                       cases hpp : schema.properties with
                       | none => rw [hpp] at hpr; simp at hpr
                       | some plist =>
                         rw [hpp] at hpr
                         simp only [Option.getD] at hpr
                         exact Or.inr (Or.inr (Or.inr (Or.inr (Or.inr (Or.inr (Or.inl
                           ⟨fields, plist, pr, pv, rfl, rfl, hpr, heq, hel⟩))))))
                     · exact absurd hel (List.not_mem_nil e)
                 · exact Or.inr (Or.inr (Or.inr (Or.inr (Or.inr (Or.inl hextra)))))
               · exact absurd hobj (List.not_mem_nil e)
           · rcases value with _ | b | q | s | xs | fields <;> simp only [] at harr
             all_goals try exact absurd harr (List.not_mem_nil e)
             split at harr
             · split at harr
               · rename_i itemsSchema heqItems
                 simp only [] at harr
                 rw [List.map_map] at harr
                 obtain ⟨l, hl, hel⟩ := List.mem_flatten.mp harr
                 obtain ⟨ia, hia, rfl⟩ := List.mem_map.mp hl
                 simp only [Function.comp] at hel
                 exact Or.inr (Or.inr (Or.inr (Or.inr (Or.inr (Or.inr (Or.inr
                   ⟨xs, itemsSchema, ia, rfl, heqItems, hia, hel⟩))))))
               · exact absurd harr (List.not_mem_nil e)
             · exact absurd harr (List.not_mem_nil e))

/-- Invariant of the recursive validator: every produced error satisfies
`ErrOK` against the document the validated value was read from.  In
particular the recursive validator never creates the three refinement codes,
and every `TYPE_MISMATCH` error records the value currently sitting at its
path. -/
theorem validateValueF_errOK :
    ∀ (fuel : Nat) (opts : ValidationOptions) (value : JSONValue) (schema : JSONSchema)
      (path : String) (d : JSONValue),
      schemaSegsOk schema = true →
      getValueAtPath d (parsePath path) = some value →
      ∀ e ∈ (validateValueF fuel opts value schema path).1, ErrOK d e := by
  intro fuel
  induction fuel with
  | zero =>
    intro opts value schema path d _ _ e he
    exact absurd he (List.not_mem_nil e)
  | succ fuel ih =>
    intro opts value schema path d hok hroot e he
    cases hoo : schema.oneOf with
    | some alts =>
      have hv : validateValueF (fuel + 1) opts value schema path =
          resolveOneOf value ((sortSchemasByLikelihood value alts).map
            (fun t => (t, validateValueF fuel opts value t path))) none := by
        simp only [validateValueF, hoo]
      rw [hv] at he
      rcases resolveOneOf_mem_subset value _ none e he with ⟨p, hp, hep⟩ | ⟨b, hb, _⟩
      · obtain ⟨t, ht, rfl⟩ := List.mem_map.mp hp
        exact ih opts value t path d
          (schemaSlistOk_mem alts (schemaSegsOk_oneOf schema alts hok hoo) t
            ((mem_sortSchemasByLikelihood value alts t).mp ht)) hroot e hep
      · exact Option.noConfusion hb
    | none =>
      rcases validateValueF_none_mem fuel opts value schema path e hoo he with
        hA | hB | hC | hD | hE | hF | hG | hH
      · refine ⟨fun _ => ?_, fun h => absurd (hA.1.symm.trans h) (by decide),
          fun h => absurd (hA.1.symm.trans h) (by decide),
          fun h => absurd (hA.1.symm.trans h) (by decide),
          fun h => absurd (hA.1.symm.trans h) (by decide)⟩
        rw [hA.2.1, hroot]
        exact hA.2.2
      · exact errOK_of_codes d e (fun h => absurd (hB.symm.trans h) (by decide))
          (fun h => absurd (hB.symm.trans h) (by decide))
          (fun h => absurd (hB.symm.trans h) (by decide))
          (fun h => absurd (hB.symm.trans h) (by decide))
          (fun h => absurd (hB.symm.trans h) (by decide))
      · exact stringConstraintErrors_errOK schema value path d e hC
      · exact numberConstraintErrors_errOK schema value path d e hD
      · exact requiredErrors_errOK value schema path d e hE
      · exact extraPropResults_errOK opts value schema path d e hF
      · obtain ⟨fields, props, pr, pv, rfl, hpp, hpr, hfg, hel⟩ := hG
        have hseg := schemaPlistOk_mem props (schemaSegsOk_properties schema props hok hpp) pr hpr
        exact ih opts pv pr.2 (joinPath path pr.1) d hseg.2
          (getValueAtPath_obj_child d path fields pr.1 pv hroot hseg.1 hfg) e hel
      · obtain ⟨xs, itemsSchema, ia, rfl, hit, hia, hel⟩ := hH
        exact ih opts ia.2 itemsSchema (joinPath path (natRepr ia.1)) d
          (schemaSegsOk_items schema itemsSchema hok hit)
          (getValueAtPath_arr_child d path xs ia.1 ia.2 hroot (get?_of_mem_enum xs ia hia)) e hel

/-- Truthy values are not null. -/
theorem ne_null_of_truthy (v : JSONValue) (h : truthy v = true) : v ≠ .null := by
  intro hc
  subst hc
  exact absurd h (by decide)

/-- A truthy optional value is a truthy value. -/
theorem truthyOpt_eq_true (ov : Option JSONValue) (h : truthyOpt ov = true) :
    ∃ v, ov = some v ∧ truthy v = true := by
  cases ov with
  | none => exact absurd h (by decide)
  | some v => exact ⟨v, rfl, h⟩

/-- A value with a member is not null. -/
theorem ne_null_of_jsIndex_some (v : JSONValue) (k : String) (w : JSONValue)
    (h : jsIndex v k = some w) : v ≠ .null := by
  intro hc
  subst hc
  exact Option.noConfusion h

/-- A successful lookup of the non-numeric key `severity` forces an object
receiver: arrays only answer numeric-string indices, and primitives answer
nothing. -/
theorem obj_of_jsIndex_severity (v : JSONValue) (sev : JSONValue)
    (h : jsIndex v "severity" = some sev) : ∃ fs, v = JSONValue.obj fs := by
  cases v with
  | obj fs => exact ⟨fs, rfl⟩
  | arr xs =>
    rw [show jsIndex (JSONValue.arr xs) "severity" = none from by
      simp [jsIndex, (by decide : isNumericStr "severity" = false)]] at h
    exact Option.noConfusion h
  | null => exact Option.noConfusion h
  | bool b => exact Option.noConfusion h
  | num q => exact Option.noConfusion h
  | str t => exact Option.noConfusion h

/-- Writing one segment below a readable object node succeeds: if the read
walk along `ps` reaches an object, the strict-mode write walk crosses the
same containers without throwing, and the final assignment lands on that
object receiver. -/
theorem setValueAtPath_isSome :
    ∀ (ps : List String) (d : JSONValue) (fs : List (String × JSONValue))
      (seg : String) (w : JSONValue),
      getValueAtPath d ps = some (JSONValue.obj fs) →
      (setValueAtPath d (ps ++ [seg]) w).isSome = true := by
  intro ps
  induction ps with
  | nil =>
    intro d fs seg w h
    have h' : getValueAtPath.go (some d) [] = some (JSONValue.obj fs) := h
    rw [go_nil] at h'
    obtain rfl := Option.some.inj h'
    rfl
  | cons p rest ih =>
    intro d fs seg w h
    have hdnn : d ≠ JSONValue.null := by
      intro hc
      subst hc
      exact Option.noConfusion h
    have h' : getValueAtPath.go (some d) (p :: rest) = some (JSONValue.obj fs) := h
    rw [go_cons_some d p rest hdnn] at h'
    rcases hji : jsIndex d p with _ | c
    · rw [hji, go_none] at h'
      exact Option.noConfusion h'
    · rw [hji] at h'
      have hcnn : c ≠ JSONValue.null := by
        intro hc
        subst hc
        cases rest with
        | nil =>
          rw [go_nil] at h'
          exact JSONValue.noConfusion (Option.some.inj h')
        | cons r rs => exact Option.noConfusion h'
      have hrec : (setValueAtPath c (rest ++ [seg]) w).isSome = true := ih c fs seg w h'
      obtain ⟨nc, hnc⟩ := Option.isSome_iff_exists.mp hrec
      cases hra : rest ++ [seg] with
      | nil => exact absurd hra (by cases rest <;> simp)
      | cons y ys =>
        rw [hra] at hnc
        rw [List.cons_append, hra]
        cases d with
        | null => exact absurd rfl hdnn
        | bool b => exact Option.noConfusion hji
        | num q => exact Option.noConfusion hji
        | str t => exact Option.noConfusion hji
        | arr xs =>
          cases c with
          | null => exact absurd rfl hcnn
          | bool cb =>
            simp only [setValueAtPath, hji, hnc, jsAssign]
            split <;> rfl
          | num cq =>
            simp only [setValueAtPath, hji, hnc, jsAssign]
            split <;> rfl
          | str ct =>
            simp only [setValueAtPath, hji, hnc, jsAssign]
            split <;> rfl
          | arr cxs =>
            simp only [setValueAtPath, hji, hnc, jsAssign]
            split <;> rfl
          | obj cgs =>
            simp only [setValueAtPath, hji, hnc, jsAssign]
            split <;> rfl
        | obj gs =>
          cases c with
          | null => exact absurd rfl hcnn
          | bool cb =>
            simp only [setValueAtPath, hji, hnc, jsAssign, Option.isSome_some]
          | num cq =>
            simp only [setValueAtPath, hji, hnc, jsAssign, Option.isSome_some]
          | str ct =>
            simp only [setValueAtPath, hji, hnc, jsAssign, Option.isSome_some]
          | arr cxs =>
            simp only [setValueAtPath, hji, hnc, jsAssign, Option.isSome_some]
          | obj cgs =>
            simp only [setValueAtPath, hji, hnc, jsAssign, Option.isSome_some]

/-- The last segment of a path joined with a plain segment. -/
theorem getLast_parsePath_join (path seg : String) (hseg : segPlain seg = true) :
    (parsePath (joinPath path seg)).getLast? = some seg := by
  rw [parsePath_join, parsePath_plain seg hseg]
  exact List.getLast?_concat _

/-- Parsing the `diagnostics[i]` segment yields its two components. -/
theorem parsePath_diagSeg (i : Nat) :
    parsePath ("diagnostics[" ++ natRepr i ++ "]") = ["diagnostics", natRepr i] := by
  unfold parsePath
  have hd : ("diagnostics[" ++ natRepr i ++ "]").data =
      "diagnostics".data ++ '[' :: ((natRepr i).data ++ ']' :: []) := by
    simp [String.data_append,
      (by decide : "diagnostics[".data = "diagnostics".data ++ ['['])]
  rw [hd, splitSegs_sep '[' (by decide), splitSegs_sep ']' (by decide)]
  have h2 : splitSegs [] (natRepr i).data = [natRepr i] := parsePath_natRepr i
  rw [h2, (by decide : splitSegs [] "diagnostics".data = ["diagnostics"])]
  rfl

/-- Diagnostics array elements live at the joined bracketed path. -/
theorem getValueAtPath_diag_child (d data : JSONValue) (path : String)
    (ds : List JSONValue) (i : Nat) (x : JSONValue)
    (hroot : getValueAtPath d (parsePath path) = some data)
    (hdiag : jsIndex data "diagnostics" = some (.arr ds))
    (hget : ds.get? i = some x) :
    getValueAtPath d (parsePath (joinPath path ("diagnostics[" ++ natRepr i ++ "]"))) =
      some x := by
  rw [parsePath_join, parsePath_diagSeg, getValueAtPath_append, hroot,
    go_cons_some data "diagnostics" [natRepr i] (ne_null_of_jsIndex_some data _ _ hdiag), hdiag,
    go_cons_some (.arr ds) (natRepr i) [] (by intro hc; cases hc), go_nil, jsIndex_arr_natRepr]
  exact hget

/-- The position refinement preserves the error invariant: it only removes
errors and adds `INVALID_POSITION` errors at `line` / `column` paths whose
current value fails the position test. -/
theorem addPositionSpecificValidation_errOK (position : JSONValue) (path : String)
    (errors : List ValidationError) (d : JSONValue)
    (hroot : getValueAtPath d (parsePath path) = some position)
    (hnn : position ≠ JSONValue.null)
    (hinv : ∀ x ∈ errors, ErrOK d x) :
    ∀ e ∈ addPositionSpecificValidation position path errors, ErrOK d e := by
  intro e he
  have hline : getValueAtPath d (parsePath (joinPath path "line")) =
      jsIndex position "line" :=
    getValueAtPath_child d path position "line" hroot hnn (by decide)
  have hcol : getValueAtPath d (parsePath (joinPath path "column")) =
      jsIndex position "column" :=
    getValueAtPath_child d path position "column" hroot hnn (by decide)
  have he1 : ∀ x ∈ (if positionFieldBad (jsIndex position "line") = true then
      spliceOut errors (joinPath path "line") ValidationErrorCode.MIN_VALUE_VIOLATION ++
        [createError (joinPath path "line") ValidationErrorCode.INVALID_POSITION
          (jsIndex position "line") (some "positive integer (1-based line number)") none none]
      else errors), ErrOK d x := by
    intro x hx
    split at hx
    case isTrue hcond =>
      rcases List.mem_append.mp hx with hm | hm
      · exact hinv x (mem_of_mem_spliceOut _ _ _ x hm)
      · rw [List.mem_singleton] at hm
        subst hm
        exact ⟨fun h => ValidationErrorCode.noConfusion h,
          fun h => ValidationErrorCode.noConfusion h,
          fun h => ValidationErrorCode.noConfusion h,
          fun _ => ⟨Or.inl (getLast_parsePath_join path "line" (by decide)),
            show positionFieldBad (getValueAtPath d (parsePath (joinPath path "line"))) = true
              from by rw [hline]; exact hcond⟩,
          fun h => ValidationErrorCode.noConfusion h⟩
    case isFalse => exact hinv x hx
  simp only [addPositionSpecificValidation] at he
  split at he
  case isTrue hcond2 =>
    rcases List.mem_append.mp he with hm | hm
    · exact he1 e (mem_of_mem_spliceOut _ _ _ e hm)
    · rw [List.mem_singleton] at hm
      subst hm
      exact ⟨fun h => ValidationErrorCode.noConfusion h,
        fun h => ValidationErrorCode.noConfusion h,
        fun h => ValidationErrorCode.noConfusion h,
        fun _ => ⟨Or.inr (getLast_parsePath_join path "column" (by decide)),
          show positionFieldBad (getValueAtPath d (parsePath (joinPath path "column"))) = true
            from by rw [hcol]; exact hcond2.2⟩,
        fun h => ValidationErrorCode.noConfusion h⟩
  case isFalse => exact he1 e he

/-- The location refinement preserves the error invariant. -/
theorem addLocationSpecificValidation_errOK (location : JSONValue) (path : String)
    (errors : List ValidationError) (d : JSONValue)
    (hroot : getValueAtPath d (parsePath path) = some location)
    (hnn : location ≠ JSONValue.null)
    (hinv : ∀ x ∈ errors, ErrOK d x) :
    ∀ e ∈ addLocationSpecificValidation location path errors, ErrOK d e := by
  intro e he
  simp only [addLocationSpecificValidation] at he
  split at he
  case h_2 => exact hinv e he
  case h_1 rng hrng =>
    split at he
    case isFalse => exact hinv e he
    case isTrue hcondr =>
      have hrangePath : getValueAtPath d (parsePath (joinPath path "range.start")) =
          jsIndex rng "start" := by
        rw [parsePath_join, (by decide : parsePath "range.start" = ["range", "start"]),
          getValueAtPath_append, hroot,
          go_cons_some location "range" ["start"] hnn, hrng,
          go_cons_some rng "start" [] (ne_null_of_truthy rng hcondr.1), go_nil]
      split at he
      case isTrue hsv =>
        rcases List.mem_append.mp he with hm | hm
        · exact hinv e (mem_of_mem_spliceOut _ _ _ e hm)
        · rw [List.mem_singleton] at hm
          subst hm
          exact errOK_of_codes d _ (fun h => ValidationErrorCode.noConfusion h)
            (fun h => ValidationErrorCode.noConfusion h)
            (fun h => ValidationErrorCode.noConfusion h)
            (fun h => ValidationErrorCode.noConfusion h)
            (fun h => ValidationErrorCode.noConfusion h)
      case isFalse hsv =>
        have hsv' : truthyOpt (jsIndex rng "start") = true := by
          cases hb : truthyOpt (jsIndex rng "start") with
          | false => exact absurd hb hsv
          | true => rfl
        obtain ⟨sv, hsveq, hsvt⟩ := truthyOpt_eq_true _ hsv'
        have hrootStart : getValueAtPath d (parsePath (joinPath path "range.start")) =
            some sv := by
          rw [hrangePath, hsveq]
        have hgd : (jsIndex rng "start").getD JSONValue.null = sv := by rw [hsveq]; rfl
        have he1 : ∀ x ∈ addPositionSpecificValidation ((jsIndex rng "start").getD .null)
            (joinPath path "range.start") errors, ErrOK d x := by
          rw [hgd]
          exact addPositionSpecificValidation_errOK sv _ errors d hrootStart
            (ne_null_of_truthy sv hsvt) hinv
        split at he
        case isTrue hev =>
          obtain ⟨ev, heveq, hevt⟩ := truthyOpt_eq_true _ hev
          have hrootEnd : getValueAtPath d (parsePath (joinPath path "range.end")) =
              some ev := by
            rw [parsePath_join, (by decide : parsePath "range.end" = ["range", "end"]),
              getValueAtPath_append, hroot,
              go_cons_some location "range" ["end"] hnn, hrng,
              go_cons_some rng "end" [] (ne_null_of_truthy rng hcondr.1), go_nil]
            exact heveq
          have hgde : (jsIndex rng "end").getD JSONValue.null = ev := by rw [heveq]; rfl
          rw [hgde] at he
          exact addPositionSpecificValidation_errOK ev (joinPath path "range.end") _ d
            hrootEnd (ne_null_of_truthy ev hevt) he1 e he
        case isFalse => exact he1 e he

/-- The partial-diagnostic refinement block preserves the error invariant:
splices only remove errors, the missing-message / missing-location errors sit
on paths ending in their property, the severity error is not fixer-sensitive,
and the location pass preserves the invariant recursively. -/
theorem refineDiagnosticErrors_errOK (data : JSONValue) (path : String)
    (errors : List ValidationError) (d : JSONValue)
    (hroot : getValueAtPath d (parsePath path) = some data)
    (hinv : ∀ x ∈ errors, ErrOK d x) :
    ∀ e ∈ refineDiagnosticErrors data path errors, ErrOK d e := by
  intro e he
  simp only [refineDiagnosticErrors] at he
  set EA := (if hasProp data "message" = false then
      spliceOut errors (joinPath path "message")
        ValidationErrorCode.REQUIRED_PROPERTY_MISSING ++
        [createError (joinPath path "message")
          ValidationErrorCode.MISSING_DIAGNOSTIC_MESSAGE none
          (some "string containing the diagnostic message") none none]
      else errors) with hEA
  have hAinv : ∀ x ∈ EA, ErrOK d x := by
    rw [hEA]
    intro x hx
    split at hx
    · rcases List.mem_append.mp hx with hm | hm
      · exact hinv x (mem_of_mem_spliceOut _ _ _ x hm)
      · rw [List.mem_singleton] at hm
        subst hm
        exact ⟨fun h => ValidationErrorCode.noConfusion h,
          fun _ => getLast_parsePath_join path "message" (by decide),
          fun h => ValidationErrorCode.noConfusion h,
          fun h => ValidationErrorCode.noConfusion h,
          fun h => ValidationErrorCode.noConfusion h⟩
    · exact hinv x hx
  set EB := (if hasProp data "location" = false then
      spliceOut EA (joinPath path "location")
        ValidationErrorCode.REQUIRED_PROPERTY_MISSING ++
        [createError (joinPath path "location")
          ValidationErrorCode.MISSING_DIAGNOSTIC_LOCATION none
          (some "object with path and optional range") none none]
      else EA) with hEB
  have hBinv : ∀ x ∈ EB, ErrOK d x := by
    rw [hEB]
    intro x hx
    split at hx
    · rcases List.mem_append.mp hx with hm | hm
      · exact hAinv x (mem_of_mem_spliceOut _ _ _ x hm)
      · rw [List.mem_singleton] at hm
        subst hm
        exact ⟨fun h => ValidationErrorCode.noConfusion h,
          fun h => ValidationErrorCode.noConfusion h,
          fun _ => getLast_parsePath_join path "location" (by decide),
          fun h => ValidationErrorCode.noConfusion h,
          fun h => ValidationErrorCode.noConfusion h⟩
    · exact hAinv x hx
  set EC := (match jsIndex data "location" with
    | some loc =>
      if truthy loc ∧ jsTypeof loc = "object" then
        addLocationSpecificValidation loc (joinPath path "location") EB
      else EB
    | none => EB) with hEC
  have hCinv : ∀ x ∈ EC, ErrOK d x := by
    rw [hEC]
    intro x hx
    split at hx
    case h_2 => exact hBinv x hx
    case h_1 loc hloc =>
      split at hx
      case isFalse => exact hBinv x hx
      case isTrue hcondl =>
        have hrootLoc : getValueAtPath d (parsePath (joinPath path "location")) = some loc := by
          rw [getValueAtPath_child d path data "location" hroot
            (ne_null_of_jsIndex_some data "location" loc hloc) (by decide)]
          exact hloc
        exact addLocationSpecificValidation_errOK loc (joinPath path "location") EB d
          hrootLoc (ne_null_of_truthy loc hcondl.1) hBinv x hx
  split at he
  case h_2 => exact hCinv e he
  case h_1 sev hsev =>
    split at he
    case isFalse => exact hCinv e he
    case isTrue =>
      rcases List.mem_append.mp he with hm | hm
      · exact hCinv e (mem_of_mem_spliceOut _ _ _ e hm)
      · rw [List.mem_singleton] at hm
        subst hm
        obtain ⟨gs, hgs⟩ := obj_of_jsIndex_severity data sev hsev
        refine ⟨fun h => ValidationErrorCode.noConfusion h,
          fun h => ValidationErrorCode.noConfusion h,
          fun h => ValidationErrorCode.noConfusion h,
          fun h => ValidationErrorCode.noConfusion h,
          fun _ w => ?_⟩
        show (setValueAtPath d (parsePath (joinPath path "severity")) w).isSome = true
        rw [parsePath_join, parsePath_plain "severity" (by decide)]
        refine setValueAtPath_isSome (parsePath path) d gs "severity" w ?_
        rw [hroot, hgs]

/-- The RDFormat refinement pass preserves the error invariant: given that
every incoming error satisfies `ErrOK` for the root document and the node
under refinement sits at the given path, every outgoing error satisfies
`ErrOK`. -/
theorem addRDFormatSpecificValidationF_errOK :
    ∀ (fuel : Nat) (opts : ValidationOptions) (data : JSONValue) (path : String)
      (errors : List ValidationError) (warnings : List ValidationWarning) (d : JSONValue),
      getValueAtPath d (parsePath path) = some data →
      (∀ x ∈ errors, ErrOK d x) →
      ∀ e ∈ (addRDFormatSpecificValidationF fuel opts data path errors warnings).1,
        ErrOK d e := by
  intro fuel
  induction fuel with
  | zero =>
    intro opts data path errors warnings d _ hinv e he
    exact hinv e he
  | succ fuel ih =>
    intro opts data path errors warnings d hroot hinv e he
    simp only [addRDFormatSpecificValidationF] at he
    set E1 := (if isPartialDiagnostic data then refineDiagnosticErrors data path errors
      else errors) with hE1
    have hE1inv : ∀ x ∈ E1, ErrOK d x := by
      rw [hE1]
      intro x hx
      split at hx
      · exact refineDiagnosticErrors_errOK data path errors d hroot hinv x hx
      · exact hinv x hx
    clear_value E1
    have hfoldArr : ∀ (xs : List JSONValue), data = JSONValue.arr xs →
        ∀ (l : List (Nat × JSONValue)), (∀ ia ∈ l, ia ∈ xs.enum) →
        ∀ (acc : List ValidationError × List ValidationWarning),
        (∀ x ∈ acc.1, ErrOK d x) →
        ∀ x ∈ (l.foldl (fun acc (ia : Nat × JSONValue) =>
          if isPartialDiagnostic ia.2 then
            addRDFormatSpecificValidationF fuel opts ia.2 (joinPath path (natRepr ia.1))
              acc.1 acc.2
          else acc) acc).1, ErrOK d x := by
      intro xs hdx l
      induction l with
      | nil =>
        intro _ acc hacc x hx
        exact hacc x hx
      | cons ia rest ihl =>
        intro hsub acc hacc x hx
        rw [List.foldl_cons] at hx
        refine ihl (fun p hp => hsub p (List.mem_cons_of_mem _ hp)) _ ?_ x hx
        intro y hy
        split at hy
        · refine ih opts ia.2 (joinPath path (natRepr ia.1)) acc.1 acc.2 d ?_ hacc y hy
          rw [hdx] at hroot
          exact getValueAtPath_arr_child d path xs ia.1 ia.2 hroot
            (get?_of_mem_enum xs ia (hsub ia (List.mem_cons_self _ _)))
        · exact hacc y hy
    have hfoldDiag : ∀ (ds : List JSONValue),
        jsIndex data "diagnostics" = some (JSONValue.arr ds) →
        ∀ (l : List (Nat × JSONValue)), (∀ ia ∈ l, ia ∈ ds.enum) →
        ∀ (acc : List ValidationError × List ValidationWarning),
        (∀ x ∈ acc.1, ErrOK d x) →
        ∀ x ∈ (l.foldl (fun acc (ia : Nat × JSONValue) =>
          addRDFormatSpecificValidationF fuel opts ia.2
            (joinPath path ("diagnostics[" ++ natRepr ia.1 ++ "]")) acc.1 acc.2) acc).1,
          ErrOK d x := by
      intro ds hdiag l
      induction l with
      | nil =>
        intro _ acc hacc x hx
        exact hacc x hx
      | cons ia rest ihl =>
        intro hsub acc hacc x hx
        rw [List.foldl_cons] at hx
        refine ihl (fun p hp => hsub p (List.mem_cons_of_mem _ hp)) _ ?_ x hx
        intro y hy
        refine ih opts ia.2 (joinPath path ("diagnostics[" ++ natRepr ia.1 ++ "]"))
          acc.1 acc.2 d ?_ hacc y hy
        exact getValueAtPath_diag_child d data path ds ia.1 ia.2 hroot hdiag
          (get?_of_mem_enum ds ia (hsub ia (List.mem_cons_self _ _)))
    have hR2inv : ∀ x ∈ (match data with
        | JSONValue.arr xs =>
          (xs.enum).foldl (fun acc (ia : Nat × JSONValue) =>
            if isPartialDiagnostic ia.2 then
              addRDFormatSpecificValidationF fuel opts ia.2 (joinPath path (natRepr ia.1))
                acc.1 acc.2
            else acc) (E1, warnings)
        | _ => (E1, warnings)).1, ErrOK d x := by
      cases data with
      | arr xs => exact hfoldArr xs rfl xs.enum (fun _ h => h) (E1, warnings) hE1inv
      | null => exact hE1inv
      | bool b => exact hE1inv
      | num q => exact hE1inv
      | str s => exact hE1inv
      | obj fs => exact hE1inv
    split at he
    case isTrue hdr =>
      split at he
      case h_2 => exact hR2inv e he
      case h_1 ds hdiag =>
        have hr3 := hfoldDiag ds hdiag ds.enum (fun _ h => h) _ hR2inv
        split at he
        · simp only [] at he
          exact hr3 e he
        · exact hr3 e he
    case isFalse => exact hR2inv e he

/-- Every error reported by `validate` satisfies the fixer-facing invariant
for the validated document. -/
theorem validate_errOK (opts : ValidationOptions) (d : JSONValue) :
    ∀ e ∈ (validate opts (some d)).errors, ErrOK d e := by
  intro e he
  have hroot0 : getValueAtPath d (parsePath "") = some d := by
    rw [(by decide : parsePath "" = ([] : List String))]
    exact go_nil (some d)
  have hrunOK : ∀ x ∈ (addRDFormatSpecificValidationF (jsonValueSize d + 1) opts d ""
      (validateValueF (schemaSize rdformatSchema + 1) opts d rdformatSchema "").1
      (validateValueF (schemaSize rdformatSchema + 1) opts d rdformatSchema "").2).1,
      ErrOK d x := by
    refine addRDFormatSpecificValidationF_errOK _ opts d "" _ _ d hroot0 ?_
    exact validateValueF_errOK _ opts d rdformatSchema "" d (by decide) hroot0
  rcases d with _ | b | q | s | xs | fs <;> simp only [validate] at he
  · rw [List.mem_singleton] at he
    subst he
    exact errOK_of_codes _ _ (fun h => ValidationErrorCode.noConfusion h)
      (fun h => ValidationErrorCode.noConfusion h)
      (fun h => ValidationErrorCode.noConfusion h)
      (fun h => ValidationErrorCode.noConfusion h)
      (fun h => ValidationErrorCode.noConfusion h)
  · exact hrunOK e he
  · exact hrunOK e he
  · split at he
    · rw [List.mem_singleton] at he
      subst he
      exact errOK_of_codes _ _ (fun h => ValidationErrorCode.noConfusion h)
        (fun h => ValidationErrorCode.noConfusion h)
        (fun h => ValidationErrorCode.noConfusion h)
        (fun h => ValidationErrorCode.noConfusion h)
        (fun h => ValidationErrorCode.noConfusion h)
    · exact hrunOK e he
  · split at he
    · rw [List.mem_singleton] at he
      subst he
      exact errOK_of_codes _ _ (fun h => ValidationErrorCode.noConfusion h)
        (fun h => ValidationErrorCode.noConfusion h)
        (fun h => ValidationErrorCode.noConfusion h)
        (fun h => ValidationErrorCode.noConfusion h)
        (fun h => ValidationErrorCode.noConfusion h)
    · exact hrunOK e he
  · split at he
    · rw [List.mem_singleton] at he
      subst he
      exact errOK_of_codes _ _ (fun h => ValidationErrorCode.noConfusion h)
        (fun h => ValidationErrorCode.noConfusion h)
        (fun h => ValidationErrorCode.noConfusion h)
        (fun h => ValidationErrorCode.noConfusion h)
        (fun h => ValidationErrorCode.noConfusion h)
    · exact hrunOK e he

/-- The `canFixTypeMismatch` coercibility test agrees pointwise with the
coercion `fixTypeMismatch` actually attempts. -/
theorem tmCoercible_eq_isSome (t : String) (cur : Option JSONValue) :
    tmCoercible t cur = (tmCoerce t cur).isSome := by
  unfold tmCoerce tmCoercible
  rcases cur with _ | v
  · split_ifs <;> rfl
  · cases v <;> split_ifs <;> simp

/-- A type-word in the expected text guarantees a default value. -/
theorem missingDefault_isSome_of_word (pn : Option String) (exp : Option String)
    (h : expectedHasTypeWord exp = true) :
    (missingDefault pn exp).isSome = true := by
  unfold missingDefault
  split
  · rfl
  · rfl
  · rfl
  · rfl
  · rfl
  · rfl
  · rfl
  · rfl
  · cases exp with
    | none => exact absurd h (by decide)
    | some ex =>
      unfold expectedHasTypeWord at h
      rw [Bool.or_eq_true, Bool.or_eq_true, Bool.or_eq_true] at h
      simp only []
      split_ifs <;> simp_all

/-- The fixability test for missing properties agrees pointwise with the
default-value computation of the repair. -/
theorem canFixMissingProperty_eq (e : ValidationError) :
    canFixMissingProperty e = true ↔
    (missingDefault ((parsePath e.path).getLast?) e.expected).isSome = true := by
  constructor
  · intro h
    unfold canFixMissingProperty at h
    rw [Bool.or_eq_true] at h
    rcases h with h | h
    · cases hlast : (parsePath e.path).getLast? with
      | none => rw [hlast] at h; cases h
      | some n =>
        rw [hlast] at h
        have hmem : n ∈ fixableProperties := List.elem_iff.mp h
        simp only [fixableProperties, List.mem_cons, List.not_mem_nil, or_false] at hmem
        rcases hmem with rfl | rfl | rfl | rfl | rfl | rfl | rfl | rfl <;> rfl
    · exact missingDefault_isSome_of_word _ _ h
  · intro h
    unfold missingDefault at h
    unfold canFixMissingProperty
    rw [Bool.or_eq_true]
    split at h
    · left; rename_i heq; rw [heq]; decide
    · left; rename_i heq; rw [heq]; decide
    · left; rename_i heq; rw [heq]; decide
    · left; rename_i heq; rw [heq]; decide
    · left; rename_i heq; rw [heq]; decide
    · left; rename_i heq; rw [heq]; decide
    · left; rename_i heq; rw [heq]; decide
    · left; rename_i heq; rw [heq]; decide
    · right
      cases hex : e.expected with
      | none => rw [hex] at h; cases h
      | some ex =>
        rw [hex] at h
        unfold expectedHasTypeWord
        rw [Bool.or_eq_true, Bool.or_eq_true, Bool.or_eq_true]
        simp only [] at h
        split_ifs at h <;> simp_all

/-- C5: refuted — `canFix` can claim an error fixable that `applyFix` then
fails to fix.  On the document
`{"message":"x","location":{"path":"a","range":{"start":5}}}` the validator
reports an `INVALID_POSITION` error at path `location.range.start.line`;
`canFix` at the aggressive level returns true for it, yet `applyFix` on a
fresh clone of the document returns no `AppliedFix` record: the write walk of
`setValueAtPath` reads the primitive `5` at `location.range.start` and the
strict-mode assignment `(5)["line"] = 1` throws a `TypeError` (modelled as
`none`) instead of applying the fix. -/
theorem canFix_claims_fixable_but_applyFix_throws :
    ((validate defaultOptions (some (.obj [("message", .str "x"),
        ("location", .obj [("path", .str "a"),
          ("range", .obj [("start", .num 5)])])]))).errors.any (fun e =>
      e.path == "location.range.start.line" &&
      e.code == ValidationErrorCode.INVALID_POSITION &&
      canFix .aggressive e &&
      (applyFix .aggressive (deepClone (.obj [("message", .str "x"),
        ("location", .obj [("path", .str "a"),
          ("range", .obj [("start", .num 5)])])])) e).isNone)) = true := by
  decide

/-- C7: severity repair is total on validator-produced errors and follows the
synonym table.  For every `INVALID_SEVERITY` error reported by `validate` on
a document, at every fix level, applying a fix on (a clone of) that document
succeeds: `applyFix` returns an `AppliedFix` record and the updated document
— no strict-mode `TypeError`, because the validator only reports
`INVALID_SEVERITY` below an object parent that the write walk reaches — and
it writes the normalized value of whatever sits at the error path; that
normalized value is always one of the four enum severities, and the
normalization maps (case-insensitively) error/err/fatal to `ERROR`,
warning/warn/caution to `WARNING`, info/information/note to `INFO`, and every
other string as well as every non-string value to `UNKNOWN_SEVERITY`. -/
theorem fix_invalid_severity_total_and_synonym_table :
    (∀ (lvl : FixLevel) (opts : ValidationOptions) (d : JSONValue) (e : ValidationError),
      e ∈ (validate opts (some d)).errors →
      e.code = ValidationErrorCode.INVALID_SEVERITY →
      (∃ newData, applyFix lvl (deepClone d) e =
        some (some ⟨e.path,
          getFixMessage ValidationErrorCode.INVALID_SEVERITY
            (getValueAtPath d (parsePath e.path))
            (some (.str (normalizeSeverity (getValueAtPath d (parsePath e.path))))),
          getValueAtPath d (parsePath e.path),
          some (.str (normalizeSeverity (getValueAtPath d (parsePath e.path))))⟩, newData)) ∧
      normalizeSeverity (getValueAtPath d (parsePath e.path)) ∈ severityEnum) ∧
    (∀ s : String, jsToLower s = "error" ∨ jsToLower s = "err" ∨ jsToLower s = "fatal" →
      normalizeSeverity (some (.str s)) = "ERROR") ∧
    (∀ s : String, jsToLower s = "warning" ∨ jsToLower s = "warn" ∨ jsToLower s = "caution" →
      normalizeSeverity (some (.str s)) = "WARNING") ∧
    (∀ s : String, jsToLower s = "info" ∨ jsToLower s = "information" ∨ jsToLower s = "note" →
      normalizeSeverity (some (.str s)) = "INFO") ∧
    (∀ s : String, jsToLower s ∉ (["error", "err", "fatal", "warning", "warn", "caution",
        "info", "information", "note"] : List String) →
      normalizeSeverity (some (.str s)) = "UNKNOWN_SEVERITY") ∧
    (∀ cur : Option JSONValue, (∀ s : String, cur ≠ some (.str s)) →
      normalizeSeverity cur = "UNKNOWN_SEVERITY") := by
  refine ⟨?_, ?_, ?_, ?_, ?_, ?_⟩
  · intro lvl opts d e he hcode
    have hok := validate_errOK opts d e he
    have hw := hok.2.2.2.2 hcode
      (JSONValue.str (normalizeSeverity (getValueAtPath d (parsePath e.path))))
    obtain ⟨nd, hnd⟩ := Option.isSome_iff_exists.mp hw
    rw [deepClone_id]
    refine ⟨⟨nd, ?_⟩, normalizeSeverity_mem _⟩
    obtain ⟨epath, ecode, emsg, evalue, eexp⟩ := e
    simp only [] at hcode
    subst hcode
    simp only [] at hnd
    simp [applyFix, canFix, fixInvalidSeverity, hnd]
  · intro s h
    rcases h with h | h | h <;> simp [normalizeSeverity, h]
  · intro s h
    rcases h with h | h | h <;> simp [normalizeSeverity, h]
  · intro s h
    rcases h with h | h | h <;> simp [normalizeSeverity, h]
  · intro s h
    simp only [List.mem_cons, List.not_mem_nil, not_or, or_false] at h
    obtain ⟨h1, h2, h3, h4, h5, h6, h7, h8, h9⟩ := h
    simp [normalizeSeverity, h1, h2, h3, h4, h5, h6, h7, h8, h9]
  · intro cur h
    cases cur with
    | none => rfl
    | some v =>
      cases v with
      | str s => exact absurd rfl (h s)
      | null => rfl
      | bool b => rfl
      | num q => rfl
      | arr xs => rfl
      | obj fs => rfl

/-- Closed instance of the severity totality theorem: on a document whose
severity is the string `"fatal"`, `validate` reports an `INVALID_SEVERITY`
error, and fixing it at basic level succeeds and writes `"ERROR"`. -/
theorem fix_invalid_severity_total_witness :
    (createError "severity" ValidationErrorCode.INVALID_SEVERITY (some (.str "fatal"))
        (some "one of: UNKNOWN_SEVERITY, ERROR, WARNING, INFO") none none) ∈
      (validate defaultOptions (some (.obj [("message", .str "x"), ("location", .obj [("path", .str "a")]), ("severity", .str "fatal")]))).errors ∧
    (createError "severity" ValidationErrorCode.INVALID_SEVERITY (some (.str "fatal"))
        (some "one of: UNKNOWN_SEVERITY, ERROR, WARNING, INFO") none none).code =
      ValidationErrorCode.INVALID_SEVERITY ∧
    ((∃ newData, applyFix .basic (deepClone (.obj [("message", .str "x"), ("location", .obj [("path", .str "a")]), ("severity", .str "fatal")]))
        (createError "severity" ValidationErrorCode.INVALID_SEVERITY (some (.str "fatal"))
        (some "one of: UNKNOWN_SEVERITY, ERROR, WARNING, INFO") none none) =
      some (some ⟨(createError "severity" ValidationErrorCode.INVALID_SEVERITY (some (.str "fatal"))
        (some "one of: UNKNOWN_SEVERITY, ERROR, WARNING, INFO") none none).path,
        getFixMessage ValidationErrorCode.INVALID_SEVERITY
          (getValueAtPath (.obj [("message", .str "x"), ("location", .obj [("path", .str "a")]), ("severity", .str "fatal")])
            (parsePath (createError "severity" ValidationErrorCode.INVALID_SEVERITY (some (.str "fatal"))
        (some "one of: UNKNOWN_SEVERITY, ERROR, WARNING, INFO") none none).path))
          (some (.str (normalizeSeverity (getValueAtPath (.obj [("message", .str "x"), ("location", .obj [("path", .str "a")]), ("severity", .str "fatal")])
            (parsePath (createError "severity" ValidationErrorCode.INVALID_SEVERITY (some (.str "fatal"))
        (some "one of: UNKNOWN_SEVERITY, ERROR, WARNING, INFO") none none).path))))),
        getValueAtPath (.obj [("message", .str "x"), ("location", .obj [("path", .str "a")]), ("severity", .str "fatal")])
          (parsePath (createError "severity" ValidationErrorCode.INVALID_SEVERITY (some (.str "fatal"))
        (some "one of: UNKNOWN_SEVERITY, ERROR, WARNING, INFO") none none).path),
        some (.str (normalizeSeverity (getValueAtPath (.obj [("message", .str "x"), ("location", .obj [("path", .str "a")]), ("severity", .str "fatal")])
          (parsePath (createError "severity" ValidationErrorCode.INVALID_SEVERITY (some (.str "fatal"))
        (some "one of: UNKNOWN_SEVERITY, ERROR, WARNING, INFO") none none).path))))⟩, newData)) ∧
      normalizeSeverity (getValueAtPath (.obj [("message", .str "x"), ("location", .obj [("path", .str "a")]), ("severity", .str "fatal")])
        (parsePath (createError "severity" ValidationErrorCode.INVALID_SEVERITY (some (.str "fatal"))
        (some "one of: UNKNOWN_SEVERITY, ERROR, WARNING, INFO") none none).path)) ∈ severityEnum) :=
  ⟨List.Mem.head _, rfl,
   fix_invalid_severity_total_and_synonym_table.1 .basic defaultOptions
     (.obj [("message", .str "x"), ("location", .obj [("path", .str "a")]), ("severity", .str "fatal")])
     (createError "severity" ValidationErrorCode.INVALID_SEVERITY (some (.str "fatal"))
        (some "one of: UNKNOWN_SEVERITY, ERROR, WARNING, INFO") none none)
     (List.Mem.head _) rfl⟩

end RDFormat
